import Mathlib

/-!
Recent-reviews backend: circuit breaker, feed fetcher, store and poller.

A shallow embedding of `backend/internal` (circuit_breaker.go, feed.go, store.go,
poller.go) together with the properties established about it.

Modelling conventions
* `Time` is an instant on one clock line, in nanoseconds; `Duration` is a Go
  `time.Duration` (int64 nanoseconds).  Go `int`/`int64` arithmetic that can wrap is
  written with `wrap64`.
* Everything the environment decides (the clock, the outcome of a network fetch, an
  I/O error of the file system) is an explicit argument of the function that consults it.
* Sets (`map[string]struct{}`) are `Finset String`; maps keyed by the target key are
  functions `String → Option _`.
* A review log file is the list of the lines appended to it, each the encoding of a record
  or the empty line left by a failed `json.Marshal`; the files are held by path, as
  `filepath.Join` cleans it.  `ReadRecent` is given the lines of the file as text, since it
  has to cope with lines that are no records.
* `FetchPageWithRetry` and `PollOnce` return, next to their result, the list of the calls
  they made, in order.
-/

namespace RecentReviews

/-! ## Machine integers and time -/

/-- Two's-complement wrap of an integer into the int64 range. -/
def wrap64 (x : Int) : Int := (x + 2 ^ 63) % 2 ^ 64 - 2 ^ 63

/-- An instant (nanoseconds on the clock line). -/
abbrev Time := Int

/-- A `time.Duration`: int64 nanoseconds. -/
abbrev Duration := Int

/-- The zero value `time.Time{}` (January 1, year 1, 00:00 UTC) relative to the Unix epoch. -/
def zeroTime : Time := -62135596800 * 1000000000

def Millisecond : Duration := 1000000

def Second : Duration := 1000000000

/-! ## circuit_breaker.go -/

inductive cbState where
  | cbClosed
  | cbOpen
  | cbHalfOpen
deriving DecidableEq, Repr

structure CircuitBreaker where
  state : cbState
  failures : Int
  failureThreshold : Int
  openUntil : Time
  openCooldown : Duration
deriving DecidableEq, Repr

/-- `NewCircuitBreaker`: closed, zero failures, zero-valued deadline. -/
def NewCircuitBreaker (failureThreshold : Int) (openCooldown : Duration) : CircuitBreaker :=
  { state := .cbClosed
    failures := 0
    failureThreshold := failureThreshold
    openUntil := zeroTime
    openCooldown := openCooldown }

/-- `Allow` at clock reading `now`: the answer and the breaker afterwards. -/
def CircuitBreaker.Allow (c : CircuitBreaker) (now : Time) : Bool × CircuitBreaker :=
  match c.state with
  | .cbClosed => (true, c)
  | .cbOpen =>
    if now > c.openUntil then
      (true, { c with state := .cbHalfOpen })
    else
      (false, c)
  | .cbHalfOpen => (true, c)

/-- `Success`: reset the counter and close a half-open breaker. -/
def CircuitBreaker.Success (c : CircuitBreaker) : CircuitBreaker :=
  let c1 := { c with failures := 0 }
  if c1.state = .cbHalfOpen then { c1 with state := .cbClosed } else c1

/-- `Failure` at clock reading `now`. -/
def CircuitBreaker.Failure (c : CircuitBreaker) (now : Time) : CircuitBreaker :=
  let c1 := { c with failures := wrap64 (c.failures + 1) }
  match c1.state with
  | .cbClosed =>
    if c1.failures ≥ c1.failureThreshold then
      { c1 with state := .cbOpen, openUntil := now + c1.openCooldown }
    else
      c1
  | .cbHalfOpen =>
    { c1 with state := .cbOpen, openUntil := now + c1.openCooldown,
              failures := c1.failureThreshold }
  | .cbOpen => c1

/-- `State`: the debug string. -/
def CircuitBreaker.State (c : CircuitBreaker) : String :=
  match c.state with
  | .cbClosed => "closed"
  | .cbOpen => "open"
  | .cbHalfOpen => "half_open"

/-- Consecutive `Failure` calls at the clock readings `ts`, oldest first. -/
def consecutiveFailures (c : CircuitBreaker) (ts : List Time) : CircuitBreaker :=
  ts.foldl CircuitBreaker.Failure c

/-! ## types.go -/

structure AppConfig where
  AppID : String
  Country : String
deriving DecidableEq, Repr

structure Review where
  ID : String
  AppID : String
  Country : String
  Author : String
  Rating : Int
  Title : String
  Content : String
  SubmittedAt : Time
deriving DecidableEq, Repr

structure StateEntry where
  SeenIDs : List String
  LastPoll : Time
deriving DecidableEq, Repr

/-! ## feed.go -/

structure labeled where
  Label : String
deriving DecidableEq, Repr

structure appleAuthor where
  Name : labeled
deriving DecidableEq, Repr

structure appleEntry where
  ID : labeled
  Updated : labeled
  Author : appleAuthor
  Rating : labeled
  Content : labeled
  Title : labeled
deriving DecidableEq, Repr

/-- The errors a fetch can return: `*HTTPError`, a `net.Error` with its `Timeout()`
answer, the context error `ctx.Err()`, or any other error (request construction, decoding). -/
inductive FetchErr where
  | http (Status : Int) (Body : List UInt8) (URL : String)
  | net (timeout : Bool)
  | ctx
  | other (msg : String)
deriving DecidableEq, Repr

/-- What `httpClient.Do` hands back when it does not fail. -/
structure HTTPResponse where
  StatusCode : Int
  Body : List UInt8
deriving DecidableEq, Repr

def feedURL (country appID : String) (page : Int) : String :=
  "https://itunes.apple.com/" ++ country ++ "/rss/customerreviews/id=" ++ appID ++
    "/sortBy=mostRecent/page=" ++ toString page ++ "/json"

/-- `atoiSafe`: accumulate the decimal digits of `s`, ignoring every other rune. -/
def atoiSafe (s : String) : Int :=
  s.data.foldl
    (fun n ch =>
      if '0' ≤ ch ∧ ch ≤ '9' then wrap64 (n * 10 + ((ch.toNat - '0'.toNat : Nat) : Int)) else n)
    0

/-- The two `time.Parse` layouts tried on an entry's `updated` label. -/
structure TimeLayouts where
  rfc3339 : String → Option Time
  zulu : String → Option Time

/-- The timestamp given to an entry: first layout, else second layout, else `now`. -/
def entryTime (lay : TimeLayouts) (now : Time) (e : appleEntry) : Time :=
  match lay.rfc3339 e.Updated.Label with
  | some t => t
  | none =>
    match lay.zulu e.Updated.Label with
    | some tt => tt
    | none => now

/-- The `Review` literal built for a rated entry. -/
def entryReview (lay : TimeLayouts) (now : Time) (country appID : String) (e : appleEntry) :
    Review :=
  { ID := e.ID.Label
    AppID := appID
    Country := country
    Author := e.Author.Name.Label
    Rating := atoiSafe e.Rating.Label
    Title := e.Title.Label
    Content := e.Content.Label
    SubmittedAt := entryTime lay now e }

/-- The entry loop of `fetchPageOnce`: entries with an empty rating label are skipped,
every other entry appends one review. -/
def collectReviews (lay : TimeLayouts) (now : Time) (country appID : String)
    (entries : List appleEntry) : List Review :=
  entries.foldl
    (fun reviews e =>
      if e.Rating.Label = "" then reviews
      else reviews ++ [entryReview lay now country appID e])
    []

/-- `fetchPageOnce` (single attempt).  `transport` is the outcome of building and sending
the request, `decode` the JSON decoding of a body into the feed's entries, `now` the clock
reading taken after decoding. -/
def fetchPageOnce (lay : TimeLayouts) (decode : List UInt8 → Except FetchErr (List appleEntry))
    (transport : Except FetchErr HTTPResponse) (now : Time)
    (country appID : String) (page : Int) : Except FetchErr (List Review) :=
  match transport with
  | .error err => .error err
  | .ok resp =>
    if resp.StatusCode ≠ 200 then
      .error (.http resp.StatusCode (resp.Body.take 2048) (feedURL country appID page))
    else
      match decode resp.Body with
      | .error err => .error err
      | .ok entries => .ok (collectReviews lay now country appID entries)

def isTimeout : FetchErr → Bool
  | .net t => t
  | _ => false

/-- `errorType`; the argument is `none` for a nil error. -/
def errorType : Option FetchErr → String
  | some (.http status _ _) => "http_status_" ++ toString status
  | some e => if isTimeout e then "network_timeout" else "network_error"
  | none => "network_error"

/-- What `FetchPageWithRetry` does besides returning: the single attempts it makes, the
waits it starts, and the webhook notification. -/
inductive FetchEvent where
  | attempt (i : Nat)
  | wait (i : Nat) (d : Duration)
  | notify (url id errType : String)
deriving DecidableEq, Repr

/-- The environment of one `FetchPageWithRetry` call: the outcome of the single attempt
number `i`, the `time.Now().UnixNano()` reading taken after attempt `i` failed, and whether
the context is done before the timer of the wait after attempt `i` fires. -/
structure RetryEnv where
  attempt : Nat → Except FetchErr (List Review)
  unixNano : Nat → Int
  cancelled : Nat → Bool

def attempts : Nat := 3

def base : Duration := 500 * Millisecond

/-- The backoff after attempt `i`: `time.Duration(1<<i) * base`. -/
def backoff (i : Nat) : Duration := (2 : Int) ^ i * base

/-- The jitter: `UnixNano() % 200e6`, with Go's truncated remainder. -/
def jitter (unixNano : Int) : Duration := Int.tmod unixNano 200000000

/-- The attempt loop of `FetchPageWithRetry` from index `i` on; the result is the value
returned by an early `return`, or `none` with the last error when the loop is left. -/
def retryLoop (env : RetryEnv) (i : Nat) (lastErr : Option FetchErr) (tr : List FetchEvent) :
    Option (Except FetchErr (List Review)) × Option FetchErr × List FetchEvent :=
  if i < attempts then
    match env.attempt i with
    | .ok revs => (some (.ok revs), lastErr, tr ++ [.attempt i])
    | .error err =>
      if i = attempts - 1 then
        (none, some err, tr ++ [.attempt i])
      else
        let sleep := backoff i
        let j := jitter (env.unixNano i)
        if env.cancelled i then
          (some (.error .ctx), some err, tr ++ [.attempt i, .wait i (sleep + j)])
        else
          retryLoop env (i + 1) (some err) (tr ++ [.attempt i, .wait i (sleep + j)])
  else
    (none, lastErr, tr)
termination_by attempts - i

/-- `FetchPageWithRetry`: the returned value and the events in order. -/
def FetchPageWithRetry (env : RetryEnv) (webhookURL country appID : String) :
    Except FetchErr (List Review) × List FetchEvent :=
  match retryLoop env 0 none [] with
  | (some result, _, tr) => (result, tr)
  | (none, lastErr, tr) =>
    let id := appID ++ "-" ++ country
    let tr1 := tr ++ [.notify webhookURL id (errorType lastErr)]
    match lastErr with
    | some err => (.error err, tr1)
    | none => (.ok [], tr1)

/-! ## store.go -/

/-- Which step of a persistence call reports an I/O error, if any: opening the log
(`os.OpenFile`), writing or flushing it (after `n` whole records reached the file; a record
cut short by the failure is not represented), closing it, or `SaveState` (creating,
encoding, closing or renaming the temporary file). -/
inductive IOFault where
  | none
  | openLog
  | writeLog (n : Nat)
  | closeLog
  | saveState
deriving DecidableEq, Repr

/-- The pieces of a path between its slashes (`cur` collects the current piece). -/
def splitSlash : List Char → List Char → List (List Char)
  | [], cur => [cur.reverse]
  | c :: cs, cur =>
    if c = '/' then cur.reverse :: splitSlash cs [] else splitSlash cs (c :: cur)

/-- The element pass of `filepath.Clean`: empty and `.` elements are dropped, a `..`
removes the element before it, is dropped at the root, and is kept at the start of a
relative path.  `out` holds the elements kept so far, last first. -/
def cleanElems (rooted : Bool) : List String → List String → List String
  | [], out => out.reverse
  | e :: es, out =>
    if e = "" ∨ e = "." then
      cleanElems rooted es out
    else if e = ".." then
      match out with
      | top :: out' =>
        if top = ".." then cleanElems rooted es (".." :: out) else cleanElems rooted es out'
      | [] => if rooted then cleanElems rooted es [] else cleanElems rooted es [".."]
    else
      cleanElems rooted es (e :: out)

/-- `filepath.Clean` for slash-separated paths. -/
def filepathClean (path : String) : String :=
  if path = "" then "."
  else
    let rooted := decide (path.data.head? = some '/')
    let body := "/".intercalate (cleanElems rooted ((splitSlash path.data []).map String.mk) [])
    if rooted then "/" ++ body else if body = "" then "." else body

/-- `filepath.Join`: leading empty elements are skipped, the others are joined with
slashes and the result is cleaned. -/
def filepathJoin (elem : List String) : String :=
  match elem.dropWhile (fun e => decide (e = "")) with
  | [] => ""
  | rest => filepathClean ("/".intercalate rest)

/-- One line of a review log: the JSON encoding of a record, or the empty line that is
written when `json.Marshal` fails and its error is discarded. -/
inductive LogLine where
  | record (r : Review)
  | blank
deriving DecidableEq, Repr

/-- The instant 0000-01-01T00:00:00Z. -/
def yearZero : Time := -62167219200 * 1000000000

/-- The instant 10000-01-01T00:00:00Z. -/
def yearTenThousand : Time := 253402300800 * 1000000000

/-- Whether `json.Marshal` accepts a review: `Time.MarshalJSON` rejects a timestamp whose
year (in UTC, as `SubmittedAt` is stored) lies outside 0..9999; no other field can fail. -/
def marshalOK (r : Review) : Bool :=
  decide (yearZero ≤ r.SubmittedAt ∧ r.SubmittedAt < yearTenThousand)

/-- The line `AppendReviews` writes for a review: `b, _ := json.Marshal(r)` followed by a
newline. -/
def marshalLine (r : Review) : LogLine :=
  if marshalOK r then .record r else .blank

/-- The records held by the lines of a log. -/
def logRecords (lines : List LogLine) : List Review :=
  lines.filterMap (fun l => match l with
    | .record r => some r
    | .blank => none)

/-- The store: its base directory, the in-memory state document `state.Entries`, the state
document as last put in place on disk (`none` while `state.json` does not exist), and the
lines of the review log files, by path (a file that does not exist has no lines). -/
structure FileStore where
  baseDir : String
  state : String → Option StateEntry
  stateFile : Option (String → Option StateEntry)
  logs : String → List LogLine

/-- A store over the empty data directory `data` (the one `main` creates). -/
def FileStore.empty : FileStore :=
  { baseDir := "data", state := fun _ => none, stateFile := none, logs := fun _ => [] }

def storeKey (appID country : String) : String := appID ++ "-" ++ country

/-- `ReviewsFilePath`: the path of the target's log file. -/
def FileStore.ReviewsFilePath (s : FileStore) (appID country : String) : String :=
  filepathJoin [s.baseDir, "reviews", appID ++ "-" ++ country ++ ".jsonl"]

/-- `SaveState`: on failure `state.json` keeps its content, otherwise the rename puts the
encoded in-memory document in place.  Returns whether an error is returned. -/
def FileStore.SaveState (s : FileStore) (fails : Bool) : Bool × FileStore :=
  if fails then (true, s) else (false, { s with stateFile := some s.state })

/-- The set built from a slice of identifiers by `set[id] = struct{}{}`. -/
def idSet (ids : List String) : Finset String :=
  ids.foldl (fun set id => insert id set) ∅

/-- `GetSeenSet`: a fresh set holding the target's seen identifiers. -/
def FileStore.GetSeenSet (s : FileStore) (appID country : String) : Finset String :=
  match s.state (storeKey appID country) with
  | none => ∅
  | some ent => idSet ent.SeenIDs

/-- The merge loop of `AppendReviews`: every identifier of `newIDs` not yet in the set is
appended to the entry's sequence and added to the set. -/
def mergeSeen (ent : StateEntry) (newIDs : List String) : StateEntry :=
  (newIDs.foldl
    (fun (p : StateEntry × Finset String) id =>
      if id ∈ p.2 then p
      else ({ p.1 with SeenIDs := p.1.SeenIDs ++ [id] }, insert id p.2))
    (ent, idSet ent.SeenIDs)).1

/-- `AppendReviews` at clock reading `now` under the I/O behaviour `io`: whether an error
is returned, and the store afterwards. -/
def FileStore.AppendReviews (s : FileStore) (now : Time) (io : IOFault)
    (appID country : String) (reviews : List Review) (newIDs : List String) :
    Bool × FileStore :=
  let path := s.ReviewsFilePath appID country
  match io with
  | .openLog => (true, s)
  | .writeLog n =>
    (true, { s with
      logs := Function.update s.logs path (s.logs path ++ (reviews.take n).map marshalLine) })
  | .closeLog =>
    (true, { s with
      logs := Function.update s.logs path (s.logs path ++ reviews.map marshalLine) })
  | .none | .saveState =>
    let s1 := { s with
      logs := Function.update s.logs path (s.logs path ++ reviews.map marshalLine) }
    let k := storeKey appID country
    let ent : StateEntry :=
      match s1.state k with
      | some e => e
      | none => { SeenIDs := [], LastPoll := zeroTime }
    let ent1 := { ent with LastPoll := now }
    let ent2 := mergeSeen ent1 newIDs
    let s2 := { s1 with state := Function.update s1.state k (some ent2) }
    s2.SaveState (decide (io = .saveState))

/-- The error `ReadRecent` returns because of the content of the log: the scanner's
`bufio.ErrTooLong`.  Read errors of the file system are not modelled. -/
inductive ReadErr where
  | tooLong
deriving DecidableEq, Repr

/-- The token limit of a `bufio.Scanner` with the default buffer. -/
def MaxScanTokenSize : Nat := 64 * 1024

/-- What `bufio.ScanLines` strips from a line: one trailing carriage return. -/
def dropCR (line : String) : String :=
  if line.back = '\r' then line.dropRight 1 else line

/-- The scan loop of `ReadRecent` over the lines of the file.  A line that does not fit
the scanner's buffer stops the scan with `bufio.ErrTooLong`; a token that fails to
unmarshal is skipped; a record at or after `cutoff` is appended to `out`. -/
def scanLoop (unmarshal : String → Option Review) (cutoff : Time) :
    List String → List Review → Except ReadErr (List Review)
  | [], out => .ok out
  | line :: rest, out =>
    if line.utf8ByteSize ≥ MaxScanTokenSize then
      .error .tooLong
    else
      match unmarshal (dropCR line) with
      | none => scanLoop unmarshal cutoff rest out
      | some r =>
        if r.SubmittedAt > cutoff ∨ r.SubmittedAt = cutoff then
          scanLoop unmarshal cutoff rest (out ++ [r])
        else
          scanLoop unmarshal cutoff rest out

/-- `sort.Slice` with the comparison `less`: the slice is rearranged so that no element
is `less` than one placed before it.  The rearrangement is computed by insertion. -/
def sortSlice {α : Type} (less : α → α → Bool) (l : List α) : List α :=
  l.insertionSort (fun a b => less b a = false)

/-- `ReadRecent` at clock reading `now`.  `file` is `none` when the log cannot be opened
(`os.Open` fails, always with a `*PathError`), otherwise its lines; `unmarshal` is
`json.Unmarshal` into a fresh `Review`. -/
def ReadRecent (unmarshal : String → Option Review) (file : Option (List String))
    (horizon : Duration) (now : Time) : Except ReadErr (List Review) :=
  match file with
  | none => .ok []
  | some lines =>
    let cutoff := now + wrap64 (-horizon)
    match scanLoop unmarshal cutoff lines [] with
    | .error err => .error err
    | .ok out => .ok (sortSlice (fun a b => decide (a.SubmittedAt > b.SubmittedAt)) out)

/-- `LastPoll`: the stored time and `true`, or the zero time and `false`. -/
def FileStore.LastPoll (s : FileStore) (appID country : String) : Time × Bool :=
  match s.state (storeKey appID country) with
  | none => (zeroTime, false)
  | some ent => if ent.LastPoll = zeroTime then (zeroTime, false) else (ent.LastPoll, true)

/-- The seen-ID sequence stored for a target key (empty when the key has no entry). -/
def FileStore.seenIDs (s : FileStore) (k : String) : List String :=
  match s.state k with
  | none => []
  | some ent => ent.SeenIDs

/-! ## poller.go -/

/-- The manager: the configured breaker parameters, the store, the in-progress flags and
the lazily created breakers. -/
structure Manager where
  FailureThreshold : Int
  OpenCooldownSeconds : Int
  store : FileStore
  running : String → Bool
  breakers : String → Option CircuitBreaker

def NewManager (failureThreshold openCooldownSeconds : Int) (st : FileStore) : Manager :=
  { FailureThreshold := failureThreshold
    OpenCooldownSeconds := openCooldownSeconds
    store := st
    running := fun _ => false
    breakers := fun _ => none }

/-- `breakerForUnsafe`: the target's breaker, created on first use. -/
def Manager.breakerForUnsafe (m : Manager) (app : AppConfig) : CircuitBreaker × Manager :=
  let k := app.AppID ++ "-" ++ app.Country
  match m.breakers k with
  | some b => (b, m)
  | none =>
    let b := NewCircuitBreaker m.FailureThreshold (wrap64 (m.OpenCooldownSeconds * Second))
    (b, { m with breakers := Function.update m.breakers k (some b) })

/-- What one poll iteration does, in order: why it was skipped, the pages it fetched and
whether each fetch succeeded, its reports to the breaker, the pauses between pages and
its call to the store. -/
inductive PollEvent where
  | skippedRunning
  | skippedOpen
  | fetched (page : Nat) (ok : Bool)
  | success
  | failure
  | pause
  | append (reviews : List Review) (newIDs : List String)
deriving DecidableEq, Repr

/-- The environment of one poll iteration: the clock readings at `Allow`, at `Failure`
and at the store call, the value `FetchPageWithRetry` returns for each page, and the I/O
behaviour of the store call. -/
structure PollEnv where
  allowAt : Time
  fetch : Nat → Except FetchErr (List Review)
  failAt : Time
  storeAt : Time
  io : IOFault

/-- The local variables of `PollOnce` during the page loop. -/
structure PageLoop where
  cb : CircuitBreaker
  seen : Finset String
  newTotal : Nat
  newIDs : List String
  toAppend : List Review
  trace : List PollEvent

/-- The loop over the reviews of one page; the second component is `pageNew`. -/
def scanPage (st : PageLoop) (revs : List Review) : PageLoop × Nat :=
  revs.foldl
    (fun (p : PageLoop × Nat) r =>
      if r.ID ∈ p.1.seen then p
      else
        ({ p.1 with
            seen := insert r.ID p.1.seen
            newTotal := p.1.newTotal + 1
            newIDs := p.1.newIDs ++ [r.ID]
            toAppend := p.1.toAppend ++ [r] },
         p.2 + 1))
    (st, 0)

def maxPages : Nat := 10

/-- How the page loop is left: by the `return` after a failed fetch, or normally. -/
inductive LoopExit where
  | abandoned (st : PageLoop)
  | completed (st : PageLoop)

/-- The page loop of `PollOnce` from page `page` on. -/
def pageLoop (env : PollEnv) (page : Nat) (st : PageLoop) : LoopExit :=
  if page ≤ maxPages then
    match env.fetch page with
    | .error _ =>
      .abandoned { st with
        cb := st.cb.Failure env.failAt
        trace := st.trace ++ [.fetched page false, .failure] }
    | .ok revs =>
      let st1 := { st with cb := st.cb.Success, trace := st.trace ++ [.fetched page true, .success] }
      if revs.length = 0 then
        .completed st1
      else
        let p := scanPage st1 revs
        if p.2 = 0 then
          .completed p.1
        else
          pageLoop env (page + 1) { p.1 with trace := p.1.trace ++ [.pause] }
  else
    .completed st
termination_by maxPages + 1 - page

/-- `PollOnce` for the target `app` in the environment `env`: the manager afterwards
and the events of the iteration. -/
def Manager.PollOnce (m : Manager) (env : PollEnv) (app : AppConfig) :
    Manager × List PollEvent :=
  let k := app.AppID ++ "-" ++ app.Country
  if m.running k then
    (m, [.skippedRunning])
  else
    let cb := (m.breakerForUnsafe app).1
    let m1 := (m.breakerForUnsafe app).2
    let allowed := cb.Allow env.allowAt
    if !allowed.1 then
      ({ m1 with
          breakers := Function.update m1.breakers k (some allowed.2)
          running := Function.update m1.running k false },
       [.skippedOpen])
    else
      let seen := m1.store.GetSeenSet app.AppID app.Country
      match pageLoop env 1
          { cb := allowed.2, seen := seen, newTotal := 0, newIDs := [], toAppend := [],
            trace := [] } with
      | .abandoned st =>
        ({ m1 with
            breakers := Function.update m1.breakers k (some st.cb)
            running := Function.update m1.running k false },
         st.trace)
      | .completed st =>
        if st.newTotal > 0 then
          let r :=
            m1.store.AppendReviews env.storeAt env.io app.AppID app.Country st.toAppend st.newIDs
          ({ m1 with
              store := r.2
              breakers := Function.update m1.breakers k (some st.cb)
              running := Function.update m1.running k false },
           st.trace ++ [.append st.toAppend st.newIDs])
        else
          let r := m1.store.AppendReviews env.storeAt env.io app.AppID app.Country [] []
          ({ m1 with
              store := r.2
              breakers := Function.update m1.breakers k (some st.cb)
              running := Function.update m1.running k false },
           st.trace ++ [.append [] []])

/-- A sequence of poll iterations, each with its environment and target. -/
def Manager.run (m : Manager) (its : List (PollEnv × AppConfig)) : Manager :=
  its.foldl (fun m it => (m.PollOnce it.1 it.2).1) m

/-! ## Invariants and trace shapes -/

/-- The findings accumulated by the page loop agree with the seen set `S0` taken at the
start of the iteration: `toAppend` and `newIDs` run in parallel, the new identifiers are
distinct and were not in `S0`, `seen` is `S0` together with the new identifiers, and
`newTotal` counts them. -/
def LoopInv (S0 : Finset String) (st : PageLoop) : Prop :=
  st.toAppend.map (·.ID) = st.newIDs ∧
  st.newIDs.Nodup ∧
  (∀ x ∈ st.newIDs, x ∉ S0) ∧
  (∀ x, x ∈ st.seen ↔ x ∈ S0 ∨ x ∈ st.newIDs) ∧
  st.newTotal = st.newIDs.length

/-- The events of `n` consecutive pages from `page` on, each fetched successfully and
each yielding something new. -/
def okPages : Nat → Nat → List PollEvent
  | _, 0 => []
  | page, n + 1 => [.fetched page true, .success, .pause] ++ okPages (page + 1) n

/-- The dedup invariant of one target: no identifier occurs in two records of its log
file, every identifier of a record of the log is in its seen-ID sequence, and that sequence
has no repeated identifier. -/
def TargetInv (s : FileStore) (appID country : String) : Prop :=
  ((logRecords (s.logs (s.ReviewsFilePath appID country))).map (·.ID)).Nodup ∧
  (∀ r ∈ logRecords (s.logs (s.ReviewsFilePath appID country)),
    r.ID ∈ s.seenIDs (storeKey appID country)) ∧
  (s.seenIDs (storeKey appID country)).Nodup

/-! ## Sample inputs -/

/-- The breaker with threshold 3 and a 60 s cooldown after three consecutive failures (at
10, 20 and 30 ns) and the `Allow()` that follows the cooldown. -/
def sampleHalfOpen : CircuitBreaker :=
  ((consecutiveFailures (NewCircuitBreaker 3 (60 * Second)) [10, 20, 30]).Allow
    (31 + 60 * Second)).2

def sampleLayouts : TimeLayouts :=
  { rfc3339 := fun _ => none, zulu := fun _ => none }

def sampleEntry (id rating : String) : appleEntry :=
  { ID := ⟨id⟩, Updated := ⟨"2024-05-01T10:00:00-07:00"⟩, Author := ⟨⟨"ann"⟩⟩,
    Rating := ⟨rating⟩, Content := ⟨"fine"⟩, Title := ⟨"ok"⟩ }

/-- A feed page with the app-info entry (no rating) followed by two rated entries. -/
def samplePage : List appleEntry :=
  [sampleEntry "595068606" "", sampleEntry "1001" "5", sampleEntry "1002" "4"]

/-- One failed attempt (a network timeout), then a successful one. -/
def sampleRetryEnv : RetryEnv :=
  { attempt := fun i => if i = 0 then .error (.net true) else .ok []
    unixNano := fun _ => 1700000000123456789
    cancelled := fun _ => false }

def sampleReview (id : String) (submittedAt : Time) : Review :=
  { ID := id, AppID := "595068606", Country := "us", Author := "ann", Rating := 5,
    Title := "ok", Content := "fine", SubmittedAt := submittedAt }

/-- A store in which the target 595068606-us has seen the identifiers 1001 and 1002,
whose records are in its log file. -/
def sampleStore : FileStore :=
  { baseDir := "data"
    state := fun k =>
      if k = "595068606-us" then some { SeenIDs := ["1001", "1002"], LastPoll := 1600000000 }
      else none
    stateFile := none
    logs := fun path =>
      if path = "data/reviews/595068606-us.jsonl" then
        [.record (sampleReview "1001" 1500000000), .record (sampleReview "1002" 1500000001)]
      else [] }

def Hour : Duration := 3600 * Second

/-- The clock reading used in the samples (seconds since the epoch, in nanoseconds). -/
def sampleNow : Time := 1700000000 * Second

/-- A stand-in for `json.Unmarshal`: two lines decode to a record, every other line is
malformed.  Record 1001 was submitted exactly 48 hours before `sampleNow`, record 1002 one
second earlier. -/
def sampleUnmarshal (line : String) : Option Review :=
  if line = "review 1001" then some (sampleReview "1001" (sampleNow - 48 * Hour))
  else if line = "review 1002" then some (sampleReview "1002" (sampleNow - 48 * Hour - Second))
  else none

/-- A log with one malformed line and two well-formed ones. -/
def sampleLog : List String := ["review 1002", "not a record", "review 1001\r"]

/-- A line of 65536 bytes. -/
def longLine : String := String.mk (List.replicate 65536 'x')

def sampleApp : AppConfig := { AppID := "595068606", Country := "us" }

/-- Page 1 repeats an identifier within the page, page 2 repeats one of page 1, page 3 is
empty. -/
def sampleFetch (page : Nat) : Except FetchErr (List Review) :=
  if page = 1 then
    .ok [sampleReview "1001" 1500000000, sampleReview "1002" 1500000001,
         sampleReview "1001" 1500000000]
  else if page = 2 then
    .ok [sampleReview "1002" 1500000001, sampleReview "1003" 1500000002]
  else
    .ok []

def samplePollEnv : PollEnv :=
  { allowAt := 1700000000, fetch := sampleFetch, failAt := 1700000001,
    storeAt := 1700000002, io := .none }

/-- Page 1 yields two new reviews, the fetch of page 2 fails after its retries. -/
def sampleFailingFetch (page : Nat) : Except FetchErr (List Review) :=
  if page = 1 then .ok [sampleReview "1001" 1500000000, sampleReview "1002" 1500000001]
  else .error (.net true)

def sampleFailingEnv : PollEnv :=
  { allowAt := 1700000000, fetch := sampleFailingFetch, failAt := 1700000001,
    storeAt := 1700000002, io := .none }

/-- A manager with threshold 3 and a 60 s cooldown over `sampleStore`. -/
def sampleManager : Manager := NewManager 3 60 sampleStore

/-- A manager with threshold 3 and a 60 s cooldown over an empty store. -/
def freshManager : Manager := NewManager 3 60 FileStore.empty

/-- The iteration of `samplePollEnv` whose store call fails when closing the log. -/
def sampleCloseFailEnv : PollEnv :=
  { allowAt := 1700000000, fetch := sampleFetch, failAt := 1700000001,
    storeAt := 1700000002, io := .closeLog }

/-- A second target whose log file is the one of `sampleApp`, under another key. -/
def sampleDotApp : AppConfig := { AppID := "./595068606", Country := "us" }

/-! ## Lemmas: machine integers -/

theorem wrap64_of_range {x : Int} (h1 : -2 ^ 63 ≤ x) (h2 : x < 2 ^ 63) : wrap64 x = x := by
  unfold wrap64
  rw [Int.emod_eq_of_lt (by omega) (by omega)]
  omega

/-! ## Lemmas: circuit breaker -/

theorem consecutiveFailures_snoc (c : CircuitBreaker) (ts : List Time) (t : Time) :
    consecutiveFailures c (ts ++ [t]) = (consecutiveFailures c ts).Failure t := by
  simp [consecutiveFailures, List.foldl_append]

/-- Below the threshold the breaker stays closed and counts the failures. -/
theorem consecutiveFailures_below (n : Int) (d : Duration) (hn' : n < 2 ^ 63) (ts : List Time)
    (h : (ts.length : Int) < n) :
    consecutiveFailures (NewCircuitBreaker n d) ts =
      { NewCircuitBreaker n d with failures := (ts.length : Int) } := by
  induction ts using List.reverseRecOn with
  | nil => simp [consecutiveFailures, NewCircuitBreaker]
  | append_singleton ts t ih =>
    have hlen : ((ts ++ [t]).length : Int) = (ts.length : Int) + 1 := by simp
    rw [hlen] at h
    rw [consecutiveFailures_snoc, ih (by omega), hlen]
    have hw : wrap64 ((ts.length : Int) + 1) = (ts.length : Int) + 1 :=
      wrap64_of_range (by omega) (by omega)
    simp only [CircuitBreaker.Failure, NewCircuitBreaker, hw]
    rw [if_neg (by omega)]

/-! ## Circuit breaker: Closed, Open, HalfOpen -/

/-- C3 (breaker law).  For a breaker created with threshold `n ≥ 1` (an `int`) and
cooldown `d`: after fewer than `n` consecutive `Failure()` calls it is Closed and
`Allow()` answers true without changing it; the `n`-th `Failure()`, at time `t`, makes it
Open with open-until `t + d`; every `Allow()` at a time `≤ t + d` answers false and leaves
the breaker as it is; an `Allow()` at a time `> t + d` answers true and makes the state
HalfOpen; and from HalfOpen (cooldown `d`) `Success()` gives Closed with counter 0 while
`Failure()` at time `t'` gives Open with open-until `t' + d`. -/
theorem breaker_law (n : Int) (d : Duration) (hn : 1 ≤ n) (hn' : n < 2 ^ 63) :
    (∀ (ts : List Time) (now : Time), (ts.length : Int) < n →
      (consecutiveFailures (NewCircuitBreaker n d) ts).state = .cbClosed ∧
      (consecutiveFailures (NewCircuitBreaker n d) ts).Allow now =
        (true, consecutiveFailures (NewCircuitBreaker n d) ts)) ∧
    (∀ (ts : List Time) (t : Time), (ts.length : Int) + 1 = n →
      let c := consecutiveFailures (NewCircuitBreaker n d) (ts ++ [t])
      c.state = .cbOpen ∧ c.openUntil = t + d ∧ c.openCooldown = d ∧
      (∀ now : Time, now ≤ t + d → c.Allow now = (false, c)) ∧
      (∀ now : Time, t + d < now → c.Allow now = (true, { c with state := .cbHalfOpen }))) ∧
    (∀ (c : CircuitBreaker) (t' : Time), c.state = .cbHalfOpen → c.openCooldown = d →
      c.Success.state = .cbClosed ∧ c.Success.failures = 0 ∧
      (c.Failure t').state = .cbOpen ∧ (c.Failure t').openUntil = t' + d) := by
  refine ⟨?_, ?_, ?_⟩
  · intro ts now h
    rw [consecutiveFailures_below n d hn' ts h]
    simp [CircuitBreaker.Allow, NewCircuitBreaker]
  · intro ts t h
    have hlt : (ts.length : Int) < n := by omega
    have hw : wrap64 ((ts.length : Int) + 1) = (ts.length : Int) + 1 :=
      wrap64_of_range (by omega) (by omega)
    have hc : consecutiveFailures (NewCircuitBreaker n d) (ts ++ [t]) =
        { state := .cbOpen, failures := n, failureThreshold := n,
          openUntil := t + d, openCooldown := d } := by
      rw [consecutiveFailures_snoc, consecutiveFailures_below n d hn' ts hlt]
      simp only [CircuitBreaker.Failure, NewCircuitBreaker, hw]
      rw [if_pos (by omega), h]
    simp only [hc]
    refine ⟨trivial, trivial, trivial, ?_, ?_⟩
    · intro now hnow
      have hnot : ¬ now > t + d := not_lt.mpr hnow
      simp [CircuitBreaker.Allow, hnot]
    · intro now hnow
      have hgt : now > t + d := hnow
      simp [CircuitBreaker.Allow, hgt]
  · intro c t' hs hd
    simp [CircuitBreaker.Success, CircuitBreaker.Failure, hs, hd]

/-- C3 at the threshold of the specification: with threshold 3 and a 60 s cooldown, two
failures leave the breaker Closed and the third, at time 30, opens it until 30 + 60 s. -/
theorem breaker_law_witness :
    (consecutiveFailures (NewCircuitBreaker 3 (60 * Second)) ([10, 20] ++ [30])).state = .cbOpen ∧
    (consecutiveFailures (NewCircuitBreaker 3 (60 * Second)) ([10, 20] ++ [30])).openUntil
      = 30 + 60 * Second :=
  have h := (breaker_law 3 (60 * Second) (by decide) (by decide)).2.1 [10, 20] 30 (by decide)
  ⟨h.1, h.2.1⟩

/-- C8, refuted as stated: the breaker with threshold 3 that was opened by three failures
and made HalfOpen by the `Allow()` after the cooldown has counter 3, and its counter after
a further `Failure()` is 3 again, not 4. -/
theorem failure_counter_counterexample :
    sampleHalfOpen.state = .cbHalfOpen ∧
    sampleHalfOpen.failures = 3 ∧
    (sampleHalfOpen.Failure (40 + 60 * Second)).failures = 3 ∧
    (sampleHalfOpen.Failure (40 + 60 * Second)).failures ≠ sampleHalfOpen.failures + 1 := by
  decide

/-- C8, amended.  With counter `c` before the call (`c + 1` representable as an `int`):
in Closed and in Open the counter after `Failure()` is `c + 1`; in HalfOpen the counter
after `Failure()` is the threshold, whatever `c` was. -/
theorem failure_counter (b : CircuitBreaker) (now : Time)
    (h1 : -2 ^ 63 ≤ b.failures) (h2 : b.failures < 2 ^ 63 - 1) :
    (b.state ≠ .cbHalfOpen → (b.Failure now).failures = b.failures + 1) ∧
    (b.state = .cbHalfOpen → (b.Failure now).failures = b.failureThreshold) := by
  have hw : wrap64 (b.failures + 1) = b.failures + 1 :=
    wrap64_of_range (by omega) (by omega)
  constructor
  · intro hs
    cases hst : b.state with
    | cbClosed =>
      simp only [CircuitBreaker.Failure, hst, hw]
      split <;> rfl
    | cbOpen => simp only [CircuitBreaker.Failure, hst, hw]
    | cbHalfOpen => exact absurd hst hs
  · intro hs
    simp only [CircuitBreaker.Failure, hs]

/-- C8 amended, at a Closed breaker with counter 1 and at a HalfOpen one with counter 3. -/
theorem failure_counter_witness :
    (CircuitBreaker.Failure
      { state := .cbClosed, failures := 1, failureThreshold := 3,
        openUntil := 0, openCooldown := 60 } 5).failures = 1 + 1 ∧
    (CircuitBreaker.Failure
      { state := .cbHalfOpen, failures := 3, failureThreshold := 3,
        openUntil := 0, openCooldown := 60 } 5).failures = 3 :=
  ⟨(failure_counter
      { state := .cbClosed, failures := 1, failureThreshold := 3,
        openUntil := 0, openCooldown := 60 } 5 (by decide) (by decide)).1 (by decide),
   (failure_counter
      { state := .cbHalfOpen, failures := 3, failureThreshold := 3,
        openUntil := 0, openCooldown := 60 } 5 (by decide) (by decide)).2 rfl⟩

/-! ## Feed fetcher -/

/-- The entry loop is a filter on the rating label followed by a map. -/
theorem collectReviews_eq (lay : TimeLayouts) (now : Time) (country appID : String)
    (entries : List appleEntry) :
    collectReviews lay now country appID entries =
      (entries.filter (fun e => decide (e.Rating.Label ≠ ""))).map
        (entryReview lay now country appID) := by
  have key : ∀ (acc : List Review),
      entries.foldl
        (fun reviews e =>
          if e.Rating.Label = "" then reviews
          else reviews ++ [entryReview lay now country appID e]) acc =
      acc ++ (entries.filter (fun e => decide (e.Rating.Label ≠ ""))).map
        (entryReview lay now country appID) := by
    induction entries with
    | nil => intro acc; simp
    | cons e es ih =>
      intro acc
      rw [List.foldl_cons, ih]
      by_cases h : e.Rating.Label = ""
      · simp [h]
      · simp [h]
  simpa [collectReviews] using key []

/-- With the clock at or after the Unix epoch the jitter lies in [0, 200ms). -/
theorem jitter_bounds (x : Int) (h : 0 ≤ x) : 0 ≤ jitter x ∧ jitter x < 200 * Millisecond := by
  unfold jitter Millisecond
  exact ⟨Int.tmod_nonneg _ h, Int.tmod_lt_of_pos _ (by decide)⟩

/-- C9 (metadata exclusion).  When the response has status 200 and its body decodes to
the entries `entries`, the single-page fetch returns, in feed order, exactly one review per
entry whose rating label is non-empty and none for the others: the reviews carry their
entry's id, author, title and content with the requested appID and country, and their
number is the number of rated entries. -/
theorem metadata_exclusion (lay : TimeLayouts)
    (decode : List UInt8 → Except FetchErr (List appleEntry)) (resp : HTTPResponse)
    (now : Time) (country appID : String) (page : Int) (entries : List appleEntry)
    (hs : resp.StatusCode = 200) (hd : decode resp.Body = .ok entries) :
    ∃ reviews : List Review,
      fetchPageOnce lay decode (.ok resp) now country appID page = .ok reviews ∧
      reviews.map (fun r => (r.ID, r.Author, r.Title, r.Content, r.AppID, r.Country)) =
        (entries.filter (fun e => decide (e.Rating.Label ≠ ""))).map
          (fun e => (e.ID.Label, e.Author.Name.Label, e.Title.Label, e.Content.Label,
            appID, country)) ∧
      reviews.length = entries.countP (fun e => decide (e.Rating.Label ≠ "")) := by
  refine ⟨collectReviews lay now country appID entries, ?_, ?_, ?_⟩
  · simp [fetchPageOnce, hs, hd]
  · rw [collectReviews_eq, List.map_map]
    rfl
  · rw [collectReviews_eq, List.length_map, List.countP_eq_length_filter]

/-- C9 on a page with one unrated and two rated entries: two reviews. -/
theorem metadata_exclusion_witness :
    ∃ reviews : List Review,
      fetchPageOnce sampleLayouts (fun _ => .ok samplePage) (.ok ⟨200, []⟩) 0 "us"
        "595068606" 1 = .ok reviews ∧
      reviews.length = 2 := by
  obtain ⟨reviews, h1, _, h3⟩ :=
    metadata_exclusion sampleLayouts (fun _ => .ok samplePage) ⟨200, []⟩ 0 "us"
      "595068606" 1 samplePage rfl rfl
  exact ⟨reviews, h1, h3.trans (by decide)⟩

/-- C7 (retry policy).  With no cancellation and the clock at or after the Unix epoch,
`FetchPageWithRetry` makes the single attempts 0, 1, 2 in order until the first success and
never a fourth; it returns the reviews of the first successful attempt, or, when all three
fail, the error of the third (after notifying the webhook); and the wait after attempt `i`
(`i = 0, 1`) is `500ms * 2^i` plus a jitter in `[0, 200ms)`. -/
theorem retry_policy (env : RetryEnv) (webhookURL country appID : String)
    (hcancel : ∀ i, env.cancelled i = false) (hclock : ∀ i, 0 ≤ env.unixNano i) :
    ∃ j0 j1 : Duration,
      (0 ≤ j0 ∧ j0 < 200 * Millisecond) ∧ (0 ≤ j1 ∧ j1 < 200 * Millisecond) ∧
      FetchPageWithRetry env webhookURL country appID =
        match env.attempt 0, env.attempt 1, env.attempt 2 with
        | .ok revs, _, _ => (.ok revs, [.attempt 0])
        | .error _, .ok revs, _ =>
          (.ok revs, [.attempt 0, .wait 0 (500 * Millisecond * 2 ^ 0 + j0), .attempt 1])
        | .error _, .error _, .ok revs =>
          (.ok revs,
            [.attempt 0, .wait 0 (500 * Millisecond * 2 ^ 0 + j0),
             .attempt 1, .wait 1 (500 * Millisecond * 2 ^ 1 + j1), .attempt 2])
        | .error _, .error _, .error err =>
          (.error err,
            [.attempt 0, .wait 0 (500 * Millisecond * 2 ^ 0 + j0),
             .attempt 1, .wait 1 (500 * Millisecond * 2 ^ 1 + j1), .attempt 2,
             .notify webhookURL (appID ++ "-" ++ country) (errorType (some err))]) := by
  refine ⟨jitter (env.unixNano 0), jitter (env.unixNano 1),
    jitter_bounds _ (hclock 0), jitter_bounds _ (hclock 1), ?_⟩
  unfold FetchPageWithRetry
  cases h0 : env.attempt 0 with
  | ok r0 => simp [retryLoop, attempts, h0]
  | error e0 =>
    cases h1 : env.attempt 1 with
    | ok r1 => simp [retryLoop, attempts, hcancel, h0, h1, backoff, base, mul_comm]
    | error e1 =>
      cases h2 : env.attempt 2 with
      | ok r2 => simp [retryLoop, attempts, hcancel, h0, h1, h2, backoff, base, mul_comm]
      | error e2 => simp [retryLoop, attempts, hcancel, h0, h1, h2, backoff, base, mul_comm]

/-- C7 when the first attempt times out and the second succeeds: two attempts, one wait of
500ms plus jitter. -/
theorem retry_policy_witness :
    ∃ j0 : Duration, (0 ≤ j0 ∧ j0 < 200 * Millisecond) ∧
      FetchPageWithRetry sampleRetryEnv "" "us" "595068606" =
        (.ok [], [.attempt 0, .wait 0 (500 * Millisecond * 2 ^ 0 + j0), .attempt 1]) := by
  obtain ⟨j0, _, h0, _, h⟩ :=
    retry_policy sampleRetryEnv "" "us" "595068606" (fun _ => rfl)
      (fun _ => show (0 : Int) ≤ 1700000000123456789 by decide)
  exact ⟨j0, h0, by simpa [sampleRetryEnv] using h⟩

/-! ## Store: seen-ID merge -/

theorem mem_idSet (ids : List String) (x : String) : x ∈ idSet ids ↔ x ∈ ids := by
  have key : ∀ (acc : Finset String),
      x ∈ ids.foldl (fun set id => insert id set) acc ↔ x ∈ acc ∨ x ∈ ids := by
    induction ids with
    | nil => intro acc; simp
    | cons a as ih =>
      intro acc
      rw [List.foldl_cons, ih]
      simp only [Finset.mem_insert, List.mem_cons]
      tauto
  simpa [idSet] using key ∅

theorem idSet_eq_toFinset (ids : List String) : idSet ids = ids.toFinset := by
  ext x
  rw [mem_idSet, List.mem_toFinset]

/-- The merge loop from a sequence `cur` whose set is `seen`: the sequence grows by a list
`added` of identifiers of `news` that were not in `cur`, each once, in the order of their
first occurrence in `news`. -/
theorem merge_fold (lp : Time) (news : List String) :
    ∀ (cur : List String) (seen : Finset String), (∀ x, x ∈ seen ↔ x ∈ cur) →
      ∃ added : List String,
        (news.foldl
          (fun (p : StateEntry × Finset String) id =>
            if id ∈ p.2 then p
            else ({ p.1 with SeenIDs := p.1.SeenIDs ++ [id] }, insert id p.2))
          ({ SeenIDs := cur, LastPoll := lp }, seen)).1
          = { SeenIDs := cur ++ added, LastPoll := lp } ∧
        added.Nodup ∧
        (∀ x, x ∈ added ↔ x ∈ news ∧ x ∉ cur) ∧
        added.Pairwise (fun a b => news.indexOf a < news.indexOf b) := by
  induction news with
  | nil =>
    intro cur seen _
    exact ⟨[], by simp, List.nodup_nil, by simp, List.Pairwise.nil⟩
  | cons a as ih =>
    intro cur seen hseen
    rw [List.foldl_cons]
    by_cases ha : a ∈ seen
    · obtain ⟨added, h1, h2, h3, h4⟩ := ih cur seen hseen
      have hacur : a ∈ cur := (hseen a).1 ha
      refine ⟨added, ?_, h2, ?_, ?_⟩
      · simp only [ha, if_true]
        exact h1
      · intro x
        rw [h3 x, List.mem_cons]
        constructor
        · rintro ⟨hx, hn⟩
          exact ⟨Or.inr hx, hn⟩
        · rintro ⟨hx | hx, hn⟩
          · exact absurd (hx ▸ hacur) hn
          · exact ⟨hx, hn⟩
      · refine h4.imp_of_mem ?_
        intro x y hx hy hxy
        have hxa : x ≠ a := fun h => ((h3 x).1 hx).2 (h ▸ hacur)
        have hya : y ≠ a := fun h => ((h3 y).1 hy).2 (h ▸ hacur)
        rw [List.indexOf_cons_ne _ hxa.symm, List.indexOf_cons_ne _ hya.symm]
        exact Nat.succ_lt_succ hxy
    · have hacur : a ∉ cur := fun h => ha ((hseen a).2 h)
      have hseen' : ∀ x, x ∈ insert a seen ↔ x ∈ cur ++ [a] := by
        intro x
        simp only [Finset.mem_insert, List.mem_append, List.mem_singleton, hseen x]
        tauto
      obtain ⟨added, h1, h2, h3, h4⟩ := ih (cur ++ [a]) (insert a seen) hseen'
      have hnot : a ∉ added := fun h => by
        have := ((h3 a).1 h).2
        simp at this
      refine ⟨a :: added, ?_, ?_, ?_, ?_⟩
      · simp only [ha, if_false]
        simpa using h1
      · exact List.nodup_cons.mpr ⟨hnot, h2⟩
      · intro x
        by_cases hxa : x = a
        · subst hxa
          simp [hacur]
        · simp [h3 x, hxa]
      · refine List.Pairwise.cons ?_ (h4.imp_of_mem ?_)
        · intro y hy
          have hya : y ≠ a := fun h => hnot (h ▸ hy)
          rw [List.indexOf_cons_self, List.indexOf_cons_ne _ hya.symm]
          exact Nat.succ_pos _
        · intro x y hx hy hxy
          have hxa : x ≠ a := fun h => hnot (h ▸ hx)
          have hya : y ≠ a := fun h => hnot (h ▸ hy)
          rw [List.indexOf_cons_ne _ hxa.symm, List.indexOf_cons_ne _ hya.symm]
          exact Nat.succ_lt_succ hxy

/-- What `mergeSeen` returns. -/
theorem mergeSeen_spec (ent : StateEntry) (newIDs : List String) :
    ∃ added : List String,
      mergeSeen ent newIDs = { SeenIDs := ent.SeenIDs ++ added, LastPoll := ent.LastPoll } ∧
      added.Nodup ∧
      (∀ x, x ∈ added ↔ x ∈ newIDs ∧ x ∉ ent.SeenIDs) ∧
      added.Pairwise (fun a b => newIDs.indexOf a < newIDs.indexOf b) :=
  merge_fold ent.LastPoll newIDs ent.SeenIDs (idSet ent.SeenIDs) (mem_idSet ent.SeenIDs)

theorem seenIDs_of_state (s : FileStore) (k : String) (e : StateEntry)
    (h : s.state k = some e) : s.seenIDs k = e.SeenIDs := by
  simp [FileStore.seenIDs, h]

theorem getSeenSet_of_state (s : FileStore) (appID country : String) (e : StateEntry)
    (h : s.state (storeKey appID country) = some e) :
    s.GetSeenSet appID country = idSet e.SeenIDs := by
  simp [FileStore.GetSeenSet, h]

/-- The store after a persistence call whose log phase succeeded. -/
theorem appendReviews_written (s : FileStore) (now : Time) (io : IOFault)
    (appID country : String) (reviews : List Review) (newIDs : List String)
    (hio : io = .none ∨ io = .saveState) :
    (s.AppendReviews now io appID country reviews newIDs).2.state =
      Function.update s.state (storeKey appID country)
        (some (mergeSeen { SeenIDs := s.seenIDs (storeKey appID country), LastPoll := now }
          newIDs)) ∧
    (s.AppendReviews now io appID country reviews newIDs).2.logs =
      Function.update s.logs (s.ReviewsFilePath appID country)
        (s.logs (s.ReviewsFilePath appID country) ++ reviews.map marshalLine) := by
  rcases hio with h | h <;> subst h <;>
    cases hk : s.state (storeKey appID country) <;>
    simp [FileStore.AppendReviews, FileStore.SaveState, FileStore.seenIDs, hk]

/-- C5 (seen-ID merge).  When the target's stored sequence `s` has no repeated identifier
and the log phase of `AppendReviews` succeeds, the sequence afterwards is `s` followed by a
list `added`; it has no repeated identifier; it contains exactly the identifiers of `s` and
of `newIDs`; the added ones stand in the order of their first occurrence in `newIDs`; and
`GetSeenSet` then returns exactly the set of its elements. -/
theorem seen_merge (s : FileStore) (now : Time) (io : IOFault) (appID country : String)
    (reviews : List Review) (newIDs : List String)
    (hio : io = .none ∨ io = .saveState)
    (hnd : (s.seenIDs (storeKey appID country)).Nodup) :
    ∃ added : List String,
      (s.AppendReviews now io appID country reviews newIDs).2.seenIDs (storeKey appID country)
        = s.seenIDs (storeKey appID country) ++ added ∧
      ((s.AppendReviews now io appID country reviews newIDs).2.seenIDs
        (storeKey appID country)).Nodup ∧
      (∀ x, x ∈ (s.AppendReviews now io appID country reviews newIDs).2.seenIDs
          (storeKey appID country) ↔
        x ∈ s.seenIDs (storeKey appID country) ∨ x ∈ newIDs) ∧
      added.Pairwise (fun a b => newIDs.indexOf a < newIDs.indexOf b) ∧
      (s.AppendReviews now io appID country reviews newIDs).2.GetSeenSet appID country =
        ((s.AppendReviews now io appID country reviews newIDs).2.seenIDs
          (storeKey appID country)).toFinset := by
  obtain ⟨added, h1, h2, h3, h4⟩ :=
    mergeSeen_spec { SeenIDs := s.seenIDs (storeKey appID country), LastPoll := now } newIDs
  have hst := (appendReviews_written s now io appID country reviews newIDs hio).1
  have hent : (s.AppendReviews now io appID country reviews newIDs).2.state
      (storeKey appID country) =
      some { SeenIDs := s.seenIDs (storeKey appID country) ++ added, LastPoll := now } := by
    rw [hst, Function.update_same, h1]
  have hseen : (s.AppendReviews now io appID country reviews newIDs).2.seenIDs
      (storeKey appID country) = s.seenIDs (storeKey appID country) ++ added :=
    seenIDs_of_state _ _ _ hent
  have hset : (s.AppendReviews now io appID country reviews newIDs).2.GetSeenSet appID country
      = idSet (s.seenIDs (storeKey appID country) ++ added) :=
    getSeenSet_of_state _ _ _ _ hent
  refine ⟨added, hseen, ?_, ?_, h4, ?_⟩
  · rw [hseen]
    refine List.Nodup.append hnd h2 ?_
    intro x hx hx'
    exact ((h3 x).1 hx').2 hx
  · intro x
    rw [hseen, List.mem_append, h3 x]
    constructor
    · rintro (hx | ⟨hx, _⟩)
      · exact Or.inl hx
      · exact Or.inr hx
    · rintro (hx | hx)
      · exact Or.inl hx
      · by_cases hc : x ∈ s.seenIDs (storeKey appID country)
        · exact Or.inl hc
        · exact Or.inr ⟨hx, hc⟩
  · rw [hset, hseen, idSet_eq_toFinset]

/-- C10, refuted as stated: on an empty store, a call with one review whose `SaveState`
fails returns an error, yet the target's log file holds the review and the in-memory
document has an entry with the new identifier and last-poll time. -/
theorem appendReviews_failed_counterexample :
    (FileStore.empty.AppendReviews 1700000000 .saveState "595068606" "us"
      [sampleReview "1001" 1600000000] ["1001"]).1 = true ∧
    (FileStore.empty.AppendReviews 1700000000 .saveState "595068606" "us"
      [sampleReview "1001" 1600000000] ["1001"]).2.logs "data/reviews/595068606-us.jsonl"
      = [.record (sampleReview "1001" 1600000000)] ∧
    FileStore.empty.logs "data/reviews/595068606-us.jsonl" = [] ∧
    (FileStore.empty.AppendReviews 1700000000 .saveState "595068606" "us"
      [sampleReview "1001" 1600000000] ["1001"]).2.state "595068606-us"
      = some { SeenIDs := ["1001"], LastPoll := 1700000000 } ∧
    FileStore.empty.state "595068606-us" = none := by
  refine ⟨rfl, ?_, rfl, ?_, rfl⟩
  · decide
  · decide

/-- C10, amended.  When `AppendReviews` returns an error: the state document on disk and
every log file other than the target's own are as before the call; if the error did not
come from `SaveState` (it came from opening, writing or closing the log) the in-memory
state document is as before; if it came from opening the log, the target's log file is as
before; and if it came from `SaveState`, the target's log file holds, after its former
lines, one line per review of the call (the record, or an empty line for a review that
`json.Marshal` rejects), and the in-memory document holds the merged identifiers and the new
last-poll time. -/
theorem appendReviews_failed (s : FileStore) (now : Time) (io : IOFault)
    (appID country : String) (reviews : List Review) (newIDs : List String)
    (herr : (s.AppendReviews now io appID country reviews newIDs).1 = true) :
    (s.AppendReviews now io appID country reviews newIDs).2.stateFile = s.stateFile ∧
    (∀ path, path ≠ s.ReviewsFilePath appID country →
      (s.AppendReviews now io appID country reviews newIDs).2.logs path = s.logs path) ∧
    (io ≠ .saveState →
      (s.AppendReviews now io appID country reviews newIDs).2.state = s.state) ∧
    (io = .openLog →
      (s.AppendReviews now io appID country reviews newIDs).2.logs = s.logs) ∧
    (io = .saveState →
      (s.AppendReviews now io appID country reviews newIDs).2.logs
          (s.ReviewsFilePath appID country)
        = s.logs (s.ReviewsFilePath appID country) ++ reviews.map marshalLine ∧
      (s.AppendReviews now io appID country reviews newIDs).2.state (storeKey appID country)
        = some (mergeSeen { SeenIDs := s.seenIDs (storeKey appID country), LastPoll := now }
            newIDs)) := by
  cases io with
  | none => simp [FileStore.AppendReviews, FileStore.SaveState] at herr
  | openLog => simp [FileStore.AppendReviews]
  | writeLog n =>
    refine ⟨rfl, ?_, fun _ => rfl, ?_, ?_⟩
    · intro k hk
      simp [FileStore.AppendReviews, Function.update, hk]
    · intro h
      cases h
    · intro h
      cases h
  | closeLog =>
    refine ⟨rfl, ?_, fun _ => rfl, ?_, ?_⟩
    · intro k hk
      simp [FileStore.AppendReviews, Function.update, hk]
    · intro h
      cases h
    · intro h
      cases h
  | saveState =>
    have h := appendReviews_written s now .saveState appID country reviews newIDs (Or.inr rfl)
    refine ⟨?_, ?_, fun h => absurd rfl h, ?_, fun _ => ?_⟩
    · simp [FileStore.AppendReviews, FileStore.SaveState]
    · intro k hk
      rw [h.2]
      simp [Function.update, hk]
    · intro h
      cases h
    · rw [h.1, h.2]
      simp

/-- C10 amended, at a failing `SaveState` with one review that `json.Marshal` accepts and
one, dated in the year 10000, that it rejects: `state.json` is as before and the log file
holds the record followed by an empty line. -/
theorem appendReviews_failed_witness :
    (FileStore.empty.AppendReviews 1700000000 .saveState "595068606" "us"
      [sampleReview "1001" 1600000000, sampleReview "1002" yearTenThousand]
      ["1001", "1002"]).2.stateFile = none ∧
    (FileStore.empty.AppendReviews 1700000000 .saveState "595068606" "us"
      [sampleReview "1001" 1600000000, sampleReview "1002" yearTenThousand]
      ["1001", "1002"]).2.logs "data/reviews/595068606-us.jsonl" =
      [.record (sampleReview "1001" 1600000000), .blank] :=
  have h := appendReviews_failed FileStore.empty 1700000000 .saveState "595068606" "us"
    [sampleReview "1001" 1600000000, sampleReview "1002" yearTenThousand] ["1001", "1002"] rfl
  ⟨h.1, (h.2.2.2.2 rfl).1⟩

/-- C5 on a target that has seen 1001 and 1002 and is given 1002, 1003, 1003, 1001, 1004. -/
theorem seen_merge_witness :
    (sampleStore.AppendReviews 1700000000 .none "595068606" "us" []
      ["1002", "1003", "1003", "1001", "1004"]).2.GetSeenSet "595068606" "us" =
    ((sampleStore.AppendReviews 1700000000 .none "595068606" "us" []
      ["1002", "1003", "1003", "1001", "1004"]).2.seenIDs
        (storeKey "595068606" "us")).toFinset := by
  obtain ⟨_, _, _, _, _, h⟩ :=
    seen_merge sampleStore 1700000000 .none "595068606" "us" []
      ["1002", "1003", "1003", "1001", "1004"] (Or.inl rfl) (by decide)
  exact h

/-! ## Store: reading recent reviews -/

/-- The scan loop when every line fits the scanner's buffer. -/
theorem scanLoop_short (unmarshal : String → Option Review) (cutoff : Time)
    (lines : List String) (hshort : ∀ l ∈ lines, l.utf8ByteSize < MaxScanTokenSize) :
    ∀ out : List Review,
      scanLoop unmarshal cutoff lines out =
        .ok (out ++ (lines.filterMap (fun l => unmarshal (dropCR l))).filter
          (fun r => decide (cutoff ≤ r.SubmittedAt))) := by
  induction lines with
  | nil => intro out; simp [scanLoop]
  | cons l ls ih =>
    intro out
    have hl : ¬ l.utf8ByteSize ≥ MaxScanTokenSize :=
      Nat.not_le.mpr (hshort l (List.mem_cons_self _ _))
    have ih' := ih (fun x hx => hshort x (List.mem_cons_of_mem _ hx))
    rw [scanLoop, if_neg hl]
    cases hu : unmarshal (dropCR l) with
    | none => simp [ih', hu]
    | some r =>
      by_cases hr : cutoff ≤ r.SubmittedAt
      · have hr' : r.SubmittedAt > cutoff ∨ r.SubmittedAt = cutoff := by
          rcases lt_or_eq_of_le hr with h | h
          · exact Or.inl h
          · exact Or.inr h.symm
        simp [ih', hu, hr, hr']
      · have hr' : ¬ (r.SubmittedAt > cutoff ∨ r.SubmittedAt = cutoff) := by
          rintro (h | h)
          · exact hr (le_of_lt h)
          · exact hr (le_of_eq h.symm)
        simp [ih', hu, hr, hr']

/-- A line that does not fit the buffer makes the scan fail, whatever precedes it. -/
theorem scanLoop_tooLong (unmarshal : String → Option Review) (cutoff : Time)
    (pre post : List String) (long : String)
    (hpre : ∀ l ∈ pre, l.utf8ByteSize < MaxScanTokenSize)
    (hlong : MaxScanTokenSize ≤ long.utf8ByteSize) :
    ∀ out : List Review, scanLoop unmarshal cutoff (pre ++ long :: post) out = .error .tooLong := by
  induction pre with
  | nil => intro out; simp [scanLoop, hlong]
  | cons l ls ih =>
    intro out
    have hl : ¬ l.utf8ByteSize ≥ MaxScanTokenSize :=
      Nat.not_le.mpr (hpre l (List.mem_cons_self _ _))
    have ih' := ih (fun x hx => hpre x (List.mem_cons_of_mem _ hx))
    rw [List.cons_append, scanLoop, if_neg hl]
    cases hu : unmarshal (dropCR l) with
    | none => simp [ih']
    | some r => by_cases hr : r.SubmittedAt > cutoff ∨ r.SubmittedAt = cutoff <;> simp [ih', hr]

/-- `sortSlice` with the newest-first comparison permutes its input and leaves it
ordered by submission time, non-increasing. -/
theorem sortSlice_newestFirst (l : List Review) :
    (sortSlice (fun a b => decide (a.SubmittedAt > b.SubmittedAt)) l).Perm l ∧
    (sortSlice (fun a b => decide (a.SubmittedAt > b.SubmittedAt)) l).Pairwise
      (fun a b => a.SubmittedAt ≥ b.SubmittedAt) := by
  have htotal : IsTotal Review
      (fun a b => decide (b.SubmittedAt > a.SubmittedAt) = false) :=
    ⟨fun a b => by
      simp only [decide_eq_false_iff_not, not_lt]
      exact le_total _ _⟩
  have htrans : IsTrans Review
      (fun a b => decide (b.SubmittedAt > a.SubmittedAt) = false) :=
    ⟨fun a b c hab hbc => by
      simp only [decide_eq_false_iff_not, not_lt, gt_iff_lt] at *
      exact le_trans hbc hab⟩
  refine ⟨List.perm_insertionSort _ l, ?_⟩
  have hs := List.sorted_insertionSort
    (fun (a b : Review) => decide (b.SubmittedAt > a.SubmittedAt) = false) l
  refine List.Pairwise.imp ?_ hs
  intro a b hab
  simpa using hab

theorem utf8ByteSize_replicate (n : Nat) :
    (String.mk (List.replicate n 'x')).utf8ByteSize = n := by
  have key : ∀ (cs : List Char), (∀ c ∈ cs, c = 'x') →
      String.utf8ByteSize.go cs = cs.length := by
    intro cs
    induction cs with
    | nil => intro _; rfl
    | cons c cs ih =>
      intro h
      have hc : c = 'x' := h c (List.mem_cons_self _ _)
      have := ih (fun d hd => h d (List.mem_cons_of_mem _ hd))
      simp only [String.utf8ByteSize.go, this, List.length_cons, hc]
      rfl
  have := key (List.replicate n 'x') (fun c hc => List.eq_of_mem_replicate hc)
  simpa [String.utf8ByteSize] using this

/-- A line that does not fit the buffer makes `ReadRecent` fail, whatever the lines before
and after it. -/
theorem readRecent_tooLong (unmarshal : String → Option Review) (pre post : List String)
    (long : String) (horizon : Duration) (now : Time)
    (hpre : ∀ l ∈ pre, l.utf8ByteSize < MaxScanTokenSize)
    (hlong : MaxScanTokenSize ≤ long.utf8ByteSize) :
    ReadRecent unmarshal (some (pre ++ long :: post)) horizon now = .error .tooLong := by
  simp only [ReadRecent, scanLoop_tooLong unmarshal _ pre post long hpre hlong []]

/-- C4, on the input at which the code departs from it.  The log holds a well-formed
record submitted exactly 48 hours before `now`, followed by a malformed line of 65536
bytes; with a horizon of 48 hours the record is within the horizon, yet `ReadRecent` returns
the scanner's error instead of skipping the malformed line and returning the record. -/
theorem readRecent_long_line :
    ReadRecent sampleUnmarshal (some ["review 1001", longLine]) (48 * Hour) sampleNow =
      .error .tooLong ∧
    sampleUnmarshal "review 1001" = some (sampleReview "1001" (sampleNow - 48 * Hour)) ∧
    sampleNow - 48 * Hour ≤ (sampleReview "1001" (sampleNow - 48 * Hour)).SubmittedAt ∧
    sampleUnmarshal longLine = none := by
  refine ⟨?_, by decide, by decide, by decide⟩
  exact readRecent_tooLong sampleUnmarshal ["review 1001"] [] longLine (48 * Hour) sampleNow
    (by decide) (by rw [longLine, utf8ByteSize_replicate]; decide)

/-- With the minimum duration as horizon the negation `-horizon` wraps, so a record
submitted at `now` is returned although it is earlier than `now - horizon`. -/
theorem readRecent_min_horizon :
    ReadRecent (fun _ => some (sampleReview "1001" sampleNow)) (some ["review 1001"])
        (-2 ^ 63) sampleNow = .ok [sampleReview "1001" sampleNow] ∧
    ¬ (sampleNow - (-2 ^ 63) ≤ (sampleReview "1001" sampleNow).SubmittedAt) :=
  ⟨by rfl, by decide⟩

/-- `ReadRecent` on a log without over-long lines.  For every log whose lines are each
shorter than 65536 bytes, every horizon other than the minimum duration and every current
time `now`, `ReadRecent` succeeds and returns a list that is a permutation of the records
obtained by unmarshalling each line (as the scanner yields it) independently, discarding
the lines that fail to unmarshal and keeping exactly the records with
`submittedAt ≥ now - horizon`, and that is ordered by `submittedAt` non-increasing. -/
theorem readRecent_result (unmarshal : String → Option Review) (lines : List String)
    (horizon : Duration) (now : Time)
    (hshort : ∀ l ∈ lines, l.utf8ByteSize < MaxScanTokenSize)
    (hmin : -2 ^ 63 < horizon) (hmax : horizon < 2 ^ 63) :
    ∃ out : List Review,
      ReadRecent unmarshal (some lines) horizon now = .ok out ∧
      out.Perm ((lines.filterMap (fun l => unmarshal (dropCR l))).filter
        (fun r => decide (now - horizon ≤ r.SubmittedAt))) ∧
      out.Pairwise (fun a b => a.SubmittedAt ≥ b.SubmittedAt) := by
  have hw : wrap64 (-horizon) = -horizon := by
    unfold Duration at *
    exact wrap64_of_range (by omega) (by omega)
  have hcut : now + wrap64 (-horizon) = now - horizon := by
    rw [hw]
    exact (sub_eq_add_neg now horizon).symm
  have hscan := scanLoop_short unmarshal (now - horizon) lines hshort []
  have hsort := sortSlice_newestFirst
    ((lines.filterMap (fun l => unmarshal (dropCR l))).filter
      (fun r => decide (now - horizon ≤ r.SubmittedAt)))
  refine ⟨_, ?_, hsort.1, hsort.2⟩
  simp only [ReadRecent, hcut, hscan, List.nil_append]

/-- On a log with a short malformed line, a record submitted exactly 48 hours ago and one
submitted a second earlier, the read returns exactly the first record. -/
theorem readRecent_result_witness :
    ReadRecent sampleUnmarshal (some sampleLog) (48 * Hour) sampleNow =
      .ok [sampleReview "1001" (sampleNow - 48 * Hour)] := by
  obtain ⟨out, h1, h2, _⟩ :=
    readRecent_result sampleUnmarshal sampleLog (48 * Hour) sampleNow
      (by decide) (by decide) (by decide)
  have h3 : (sampleLog.filterMap (fun l => sampleUnmarshal (dropCR l))).filter
      (fun r => decide (sampleNow - 48 * Hour ≤ r.SubmittedAt)) =
      [sampleReview "1001" (sampleNow - 48 * Hour)] := by decide
  rw [h3] at h2
  rw [h1, List.perm_singleton.mp h2]

/-! ## Poller -/

theorem mem_getSeenSet (s : FileStore) (appID country x : String) :
    x ∈ s.GetSeenSet appID country ↔ x ∈ s.seenIDs (storeKey appID country) := by
  unfold FileStore.GetSeenSet FileStore.seenIDs
  cases s.state (storeKey appID country) with
  | none => simp
  | some e => exact mem_idSet e.SeenIDs x

/-- The review loop over one page, started with `pageNew = n`: breaker and trace are not
touched; a list `added` of reviews of the page is appended to `toAppend`, their identifiers
to `newIDs` and to `seen`; the identifiers are distinct and were not in `seen`; both counters
grow by the number of added reviews. -/
theorem scanPage_fold (revs : List Review) :
    ∀ (st : PageLoop) (n : Nat),
      ∃ added : List Review,
        (revs.foldl
          (fun (p : PageLoop × Nat) r =>
            if r.ID ∈ p.1.seen then p
            else
              ({ p.1 with
                  seen := insert r.ID p.1.seen
                  newTotal := p.1.newTotal + 1
                  newIDs := p.1.newIDs ++ [r.ID]
                  toAppend := p.1.toAppend ++ [r] },
               p.2 + 1))
          (st, n)) =
          ({ cb := st.cb
             seen := st.seen ∪ (added.map (·.ID)).toFinset
             newTotal := st.newTotal + added.length
             newIDs := st.newIDs ++ added.map (·.ID)
             toAppend := st.toAppend ++ added
             trace := st.trace }, n + added.length) ∧
        (added.map (·.ID)).Nodup ∧
        (∀ r ∈ added, r.ID ∉ st.seen ∧ r ∈ revs) := by
  induction revs with
  | nil =>
    intro st n
    exact ⟨[], by simp, by simp, by simp⟩
  | cons r rs ih =>
    intro st n
    rw [List.foldl_cons]
    by_cases hr : r.ID ∈ st.seen
    · obtain ⟨added, h1, h2, h3⟩ := ih st n
      refine ⟨added, ?_, h2, fun x hx => ⟨(h3 x hx).1, List.mem_cons_of_mem _ (h3 x hx).2⟩⟩
      simp only [hr, if_true]
      exact h1
    · obtain ⟨added, h1, h2, h3⟩ := ih
        { st with
            seen := insert r.ID st.seen
            newTotal := st.newTotal + 1
            newIDs := st.newIDs ++ [r.ID]
            toAppend := st.toAppend ++ [r] } (n + 1)
      have hnot : r.ID ∉ added.map (·.ID) := by
        intro hmem
        obtain ⟨x, hx, hxr⟩ := List.mem_map.mp hmem
        exact (h3 x hx).1 (by simp [hxr])
      refine ⟨r :: added, ?_, ?_, ?_⟩
      · simp only [hr, if_false]
        rw [h1]
        simp only [List.map_cons, List.length_cons, List.toFinset_cons, List.append_assoc,
          List.singleton_append, Prod.mk.injEq, PageLoop.mk.injEq, true_and, and_true]
        refine ⟨⟨?_, by omega⟩, by omega⟩
        ext x
        simp only [Finset.mem_union, Finset.mem_insert, List.mem_toFinset]
        tauto
      · simpa using ⟨fun x hx hxr => hnot (List.mem_map.mpr ⟨x, hx, hxr⟩), h2⟩
      · intro x hx
        rcases List.mem_cons.mp hx with h | h
        · subst h
          exact ⟨hr, List.mem_cons_self _ _⟩
        · refine ⟨fun hs => (h3 x h).1 ?_, List.mem_cons_of_mem _ (h3 x h).2⟩
          exact Finset.mem_insert_of_mem hs

theorem scanPage_spec (st : PageLoop) (revs : List Review) :
    ∃ added : List Review,
      scanPage st revs =
        ({ cb := st.cb
           seen := st.seen ∪ (added.map (·.ID)).toFinset
           newTotal := st.newTotal + added.length
           newIDs := st.newIDs ++ added.map (·.ID)
           toAppend := st.toAppend ++ added
           trace := st.trace }, added.length) ∧
      (added.map (·.ID)).Nodup ∧
      (∀ r ∈ added, r.ID ∉ st.seen ∧ r ∈ revs) := by
  obtain ⟨added, h1, h2, h3⟩ := scanPage_fold revs st 0
  exact ⟨added, by simpa [scanPage] using h1, h2, h3⟩

/-- A page whose identifiers are all in `seen` changes nothing and has `pageNew = 0`. -/
theorem scanPage_all_seen (st : PageLoop) (revs : List Review)
    (h : ∀ r ∈ revs, r.ID ∈ st.seen) : scanPage st revs = (st, 0) := by
  obtain ⟨added, h1, _, h3⟩ := scanPage_spec st revs
  have hnil : added = [] := by
    cases added with
    | nil => rfl
    | cons a as =>
      exact absurd (h a (h3 a (List.mem_cons_self _ _)).2) (h3 a (List.mem_cons_self _ _)).1
  subst hnil
  simpa using h1

theorem loopInv_scanPage (S0 : Finset String) (st : PageLoop) (revs : List Review)
    (h : LoopInv S0 st) : LoopInv S0 (scanPage st revs).1 := by
  obtain ⟨added, h1, h2, h3⟩ := scanPage_spec st revs
  obtain ⟨i1, i2, i3, i4, i5⟩ := h
  rw [h1]
  refine ⟨?_, ?_, ?_, ?_, ?_⟩
  · simp [i1]
  · refine List.Nodup.append i2 h2 ?_
    intro x hx hx'
    obtain ⟨r, hr, hrx⟩ := List.mem_map.mp hx'
    exact (h3 r hr).1 ((i4 _).2 (Or.inr (hrx ▸ hx)))
  · intro x hx
    rcases List.mem_append.mp hx with hx | hx
    · exact i3 x hx
    · obtain ⟨r, hr, hrx⟩ := List.mem_map.mp hx
      exact fun hs => (h3 r hr).1 ((i4 _).2 (Or.inl (hrx ▸ hs)))
  · intro x
    simp only [Finset.mem_union, List.mem_toFinset, List.mem_append, i4 x]
    tauto
  · simp [i5]

/-- The page loop keeps `LoopInv`, however it is left. -/
theorem pageLoop_inv (env : PollEnv) (S0 : Finset String) :
    ∀ (n page : Nat) (st : PageLoop), maxPages + 1 - page = n → LoopInv S0 st →
      ∃ st', (pageLoop env page st = .abandoned st' ∨ pageLoop env page st = .completed st') ∧
        LoopInv S0 st' := by
  intro n
  induction n with
  | zero =>
    intro page st hn hinv
    have hp : ¬ page ≤ maxPages := by omega
    exact ⟨st, Or.inr (by rw [pageLoop, if_neg hp]), hinv⟩
  | succ n ih =>
    intro page st hn hinv
    have hp : page ≤ maxPages := by omega
    rw [pageLoop, if_pos hp]
    cases hf : env.fetch page with
    | error e => exact ⟨_, Or.inl rfl, hinv⟩
    | ok revs =>
      simp only
      by_cases h0 : revs.length = 0
      · rw [if_pos h0]
        exact ⟨_, Or.inr rfl, hinv⟩
      · rw [if_neg h0]
        have hinv1 : LoopInv S0
            { st with
                cb := st.cb.Success
                trace := st.trace ++ [.fetched page true, .success] } := hinv
        have hinv2 := loopInv_scanPage S0 _ revs hinv1
        split
        · exact ⟨_, Or.inr rfl, hinv2⟩
        · exact ih (page + 1) _ (by omega) hinv2

theorem count_failure_okPages (n : Nat) : ∀ page, (okPages page n).count .failure = 0 := by
  induction n with
  | zero => intro page; rfl
  | succ n ih =>
    intro page
    simp [okPages, List.count_append, ih, List.count_cons]

theorem append_not_mem_okPages (n : Nat) :
    ∀ page r ids, PollEvent.append r ids ∉ okPages page n := by
  induction n with
  | zero => intro page r ids; simp [okPages]
  | succ n ih =>
    intro page r ids
    simp [okPages, ih]

/-- The trace of the page loop.  Left by the `return` after a failed fetch, it consists
of the events of `j` successful pages followed by the failed fetch of the next page and
the report of the failure; left normally, it contains no failed fetch. -/
theorem pageLoop_trace (env : PollEnv) :
    ∀ (n page : Nat) (st : PageLoop), maxPages + 1 - page = n →
      (∃ st' j, pageLoop env page st = .abandoned st' ∧ page + j ≤ maxPages ∧
        st'.trace = st.trace ++ (okPages page j ++ [.fetched (page + j) false, .failure])) ∨
      (∃ st' T, pageLoop env page st = .completed st' ∧ st'.trace = st.trace ++ T ∧
        ∀ p, PollEvent.fetched p false ∉ T) := by
  intro n
  induction n with
  | zero =>
    intro page st hn
    have hp : ¬ page ≤ maxPages := by omega
    exact Or.inr ⟨st, [], by rw [pageLoop, if_neg hp], by simp, by simp⟩
  | succ n ih =>
    intro page st hn
    have hp : page ≤ maxPages := by omega
    rw [pageLoop, if_pos hp]
    cases hf : env.fetch page with
    | error e =>
      exact Or.inl ⟨_, 0, rfl, by omega, by simp [okPages]⟩
    | ok revs =>
      simp only
      by_cases h0 : revs.length = 0
      · rw [if_pos h0]
        exact Or.inr ⟨_, [.fetched page true, .success], rfl, rfl, by simp⟩
      · rw [if_neg h0]
        obtain ⟨added, h1, -, -⟩ := scanPage_spec
          { st with
              cb := st.cb.Success
              trace := st.trace ++ [.fetched page true, .success] } revs
        split
        · refine Or.inr ⟨_, [.fetched page true, .success], rfl, ?_, by simp⟩
          rw [h1]
        · rcases ih (page + 1) _ (by omega) with ⟨st', j, e1, e2, e3⟩ | ⟨st', T, e1, e2, e3⟩
          · refine Or.inl ⟨st', j + 1, e1, by omega, ?_⟩
            rw [e3, h1]
            simp [okPages, Nat.add_assoc, Nat.add_comm 1 j]
          · refine Or.inr ⟨st', [.fetched page true, .success, .pause] ++ T, e1, ?_, ?_⟩
            · rw [e2, h1]
              simp
            · intro p
              simp [e3 p]

theorem breakerForUnsafe_store (m : Manager) (app : AppConfig) :
    (m.breakerForUnsafe app).2.store = m.store := by
  unfold Manager.breakerForUnsafe
  simp only
  split <;> rfl

theorem loopInv_init (cb : CircuitBreaker) (S0 : Finset String) :
    LoopInv S0 { cb := cb, seen := S0, newTotal := 0, newIDs := [], toAppend := [], trace := [] } :=
  ⟨rfl, List.nodup_nil, by simp, by simp, rfl⟩

/-- The store after a poll iteration: untouched, or the result of one `AppendReviews` call
whose reviews carry exactly the identifiers `ids`, distinct and not in the target's seen
set at the start of the iteration. -/
theorem pollOnce_store (m : Manager) (env : PollEnv) (app : AppConfig) :
    (m.PollOnce env app).1.store = m.store ∨
    ∃ (reviews : List Review) (ids : List String),
      reviews.map (·.ID) = ids ∧ ids.Nodup ∧
      (∀ x ∈ ids, x ∉ m.store.GetSeenSet app.AppID app.Country) ∧
      (m.PollOnce env app).1.store =
        (m.store.AppendReviews env.storeAt env.io app.AppID app.Country reviews ids).2 := by
  unfold Manager.PollOnce
  simp only
  split
  · exact Or.inl rfl
  · split
    · exact Or.inl (breakerForUnsafe_store m app)
    · obtain ⟨st', hexit, hinv⟩ := pageLoop_inv env
        ((m.breakerForUnsafe app).2.store.GetSeenSet app.AppID app.Country) _ 1
        { cb := ((m.breakerForUnsafe app).1.Allow env.allowAt).2
          seen := (m.breakerForUnsafe app).2.store.GetSeenSet app.AppID app.Country
          newTotal := 0, newIDs := [], toAppend := [], trace := [] } rfl (loopInv_init _ _)
      rw [breakerForUnsafe_store] at hinv
      rcases hexit with h | h
      · rw [h]
        exact Or.inl (breakerForUnsafe_store m app)
      · rw [h]
        simp only [breakerForUnsafe_store]
        split
        · exact Or.inr ⟨st'.toAppend, st'.newIDs, hinv.1, hinv.2.1, hinv.2.2.1, rfl⟩
        · exact Or.inr ⟨[], [], rfl, List.nodup_nil, by simp, rfl⟩

theorem fetched_false_not_mem_okPages (n : Nat) :
    ∀ page p, PollEvent.fetched p false ∉ okPages page n := by
  induction n with
  | zero => intro page p; simp [okPages]
  | succ n ih =>
    intro page p
    simp [okPages, ih]

/-- C2 (iteration atomicity).  In every poll iteration in which the fetch of some page `k`
fails: `1 ≤ k ≤ 10`; the iteration consisted of the successful fetches of pages
`1..k-1` (each reported to the breaker as a success and followed by the pause) and of the
failed fetch of page `k` followed by one report of failure; `Failure()` is thus called
exactly once; no call to the store is made, and the store (every target's review log,
seen-ID sequence and last-poll time) is exactly what it was before the iteration. -/
theorem iteration_atomicity (m : Manager) (env : PollEnv) (app : AppConfig) (k : Nat)
    (hfail : PollEvent.fetched k false ∈ (m.PollOnce env app).2) :
    (m.PollOnce env app).1.store = m.store ∧
    1 ≤ k ∧ k ≤ 10 ∧
    (m.PollOnce env app).2 = okPages 1 (k - 1) ++ [.fetched k false, .failure] ∧
    (m.PollOnce env app).2.count .failure = 1 ∧
    (∀ r ids, PollEvent.append r ids ∉ (m.PollOnce env app).2) := by
  have key : (m.PollOnce env app).1.store = m.store ∧ 1 ≤ k ∧ k ≤ 10 ∧
      (m.PollOnce env app).2 = okPages 1 (k - 1) ++ [.fetched k false, .failure] := by
    revert hfail
    unfold Manager.PollOnce
    simp only
    split
    · intro hfail
      simp at hfail
    · split
      · intro hfail
        simp at hfail
      · rcases pageLoop_trace env _ 1
          { cb := ((m.breakerForUnsafe app).1.Allow env.allowAt).2
            seen := (m.breakerForUnsafe app).2.store.GetSeenSet app.AppID app.Country
            newTotal := 0, newIDs := [], toAppend := [], trace := [] } rfl
          with ⟨st', j, e1, e2, e3⟩ | ⟨st', T, e1, e2, e3⟩
        · rw [e1]
          simp only [e3, List.nil_append]
          intro hfail
          have hk : k = 1 + j := by
            rcases List.mem_append.mp hfail with h | h
            · exact absurd h (fetched_false_not_mem_okPages j 1 k)
            · simpa using h
          subst hk
          refine ⟨breakerForUnsafe_store m app, by omega, ?_, ?_⟩
          · have : 1 + j ≤ maxPages := e2
            simpa [maxPages] using this
          · simp
        · rw [e1]
          simp only [e2, List.nil_append]
          split <;>
          · intro hfail
            simp [e3 k] at hfail
  obtain ⟨h1, h2, h3, h4⟩ := key
  refine ⟨h1, h2, h3, h4, ?_, ?_⟩
  · rw [h4, List.count_append, count_failure_okPages]
    simp [List.count_cons]
  · intro r ids
    rw [h4]
    simp [append_not_mem_okPages]

/-- C2 on the iteration of the specification: page 1 yields two new reviews, the fetch of
page 2 fails; the store is unchanged and the breaker receives one `Failure()`. -/
theorem iteration_atomicity_witness :
    (freshManager.PollOnce sampleFailingEnv sampleApp).1.store = freshManager.store ∧
    (freshManager.PollOnce sampleFailingEnv sampleApp).2.count .failure = 1 := by
  have h := iteration_atomicity freshManager sampleFailingEnv sampleApp 2
    (by simp [Manager.PollOnce, freshManager, NewManager, sampleFailingEnv, sampleApp,
      Manager.breakerForUnsafe, CircuitBreaker.Allow, NewCircuitBreaker, pageLoop, maxPages,
      sampleFailingFetch, scanPage, sampleReview, FileStore.GetSeenSet, FileStore.empty,
      storeKey])
  exact ⟨h.1, h.2.2.2.2.1⟩

/-- A successfully fetched page with nothing new ends the page loop. -/
theorem pageLoop_all_seen (env : PollEnv) (page : Nat) (st : PageLoop) (revs : List Review)
    (hp : page ≤ maxPages) (hfetch : env.fetch page = .ok revs)
    (hseen : ∀ r ∈ revs, r.ID ∈ st.seen) :
    pageLoop env page st =
      .completed { st with
        cb := st.cb.Success
        trace := st.trace ++ [.fetched page true, .success] } := by
  rw [pageLoop, if_pos hp, hfetch]
  simp only
  split
  · rfl
  · have hscan := scanPage_all_seen
      { st with
          cb := st.cb.Success
          trace := st.trace ++ [.fetched page true, .success] } revs hseen
    rw [hscan]
    simp

/-- A store call without reviews and identifiers leaves every log and every seen-ID
sequence as they are, whatever its I/O behaviour. -/
theorem appendReviews_nil (s : FileStore) (now : Time) (io : IOFault) (appID country : String) :
    (s.AppendReviews now io appID country [] []).2.logs = s.logs ∧
    ∀ k, (s.AppendReviews now io appID country [] []).2.seenIDs k = s.seenIDs k := by
  have hlogs : Function.update s.logs (s.ReviewsFilePath appID country)
      (s.logs (s.ReviewsFilePath appID country) ++ ([] : List Review).map marshalLine) =
      s.logs := by
    rw [List.map_nil, List.append_nil, Function.update_eq_self]
  have hwritten : ∀ io', io' = IOFault.none ∨ io' = IOFault.saveState →
      (s.AppendReviews now io' appID country [] []).2.logs = s.logs ∧
      ∀ k, (s.AppendReviews now io' appID country [] []).2.seenIDs k = s.seenIDs k := by
    intro io' hio
    obtain ⟨hst, hlog⟩ := appendReviews_written s now io' appID country [] [] hio
    refine ⟨by rw [hlog, hlogs], ?_⟩
    intro k
    by_cases hk : k = storeKey appID country
    · subst hk
      exact seenIDs_of_state _ _ _ (by rw [hst, Function.update_same])
    · unfold FileStore.seenIDs
      rw [hst, Function.update_noteq hk]
  cases io with
  | none => exact hwritten _ (Or.inl rfl)
  | saveState => exact hwritten _ (Or.inr rfl)
  | openLog => exact ⟨rfl, fun _ => rfl⟩
  | writeLog n =>
    refine ⟨?_, fun _ => rfl⟩
    simp [FileStore.AppendReviews]
  | closeLog =>
    refine ⟨?_, fun _ => rfl⟩
    simp [FileStore.AppendReviews]

/-- C6 (an iteration that finds nothing new changes only last-poll).  In a poll iteration
that is not skipped (the target is not in progress and its breaker allows the request),
whose first page is fetched successfully and has no entry, or only entries whose
identifiers are in the target's seen set: page 1 is the only page fetched, a success and no
failure is reported to the breaker, and exactly one store call is made, with no reviews and
no new identifiers; every review log and every seen-ID sequence is unchanged; and when the
store call reports no I/O error, the target's entry holds its seen-ID sequence and the
clock reading of the store call as last-poll time, the entries of the other targets being
untouched. -/
theorem nothing_new (m : Manager) (env : PollEnv) (app : AppConfig) (revs : List Review)
    (hrun : m.running (storeKey app.AppID app.Country) = false)
    (hallow : ((m.breakerForUnsafe app).1.Allow env.allowAt).1 = true)
    (hfetch : env.fetch 1 = .ok revs)
    (hseen : ∀ r ∈ revs, r.ID ∈ m.store.GetSeenSet app.AppID app.Country) :
    (m.PollOnce env app).2 = [.fetched 1 true, .success, .append [] []] ∧
    (m.PollOnce env app).1.store.logs = m.store.logs ∧
    (∀ k, (m.PollOnce env app).1.store.seenIDs k = m.store.seenIDs k) ∧
    (env.io = IOFault.none →
      (m.PollOnce env app).1.store.state (storeKey app.AppID app.Country) =
        some { SeenIDs := m.store.seenIDs (storeKey app.AppID app.Country),
               LastPoll := env.storeAt } ∧
      ∀ k, k ≠ storeKey app.AppID app.Country →
        (m.PollOnce env app).1.store.state k = m.store.state k) := by
  have hrun' : m.running (app.AppID ++ "-" ++ app.Country) = false := hrun
  have hloop := pageLoop_all_seen env 1
    { cb := ((m.breakerForUnsafe app).1.Allow env.allowAt).2
      seen := m.store.GetSeenSet app.AppID app.Country
      newTotal := 0, newIDs := [], toAppend := [], trace := [] } revs (by decide) hfetch hseen
  have hpoll : m.PollOnce env app =
      ({ (m.breakerForUnsafe app).2 with
          store := (m.store.AppendReviews env.storeAt env.io app.AppID app.Country [] []).2
          breakers := Function.update (m.breakerForUnsafe app).2.breakers
            (app.AppID ++ "-" ++ app.Country)
            (some ((m.breakerForUnsafe app).1.Allow env.allowAt).2.Success)
          running := Function.update (m.breakerForUnsafe app).2.running
            (app.AppID ++ "-" ++ app.Country) false },
       [.fetched 1 true, .success, .append [] []]) := by
    unfold Manager.PollOnce
    simp only [hrun', hallow, breakerForUnsafe_store, hloop]
    simp
  obtain ⟨hlogs, hseenIDs⟩ := appendReviews_nil m.store env.storeAt env.io app.AppID app.Country
  rw [hpoll]
  refine ⟨rfl, hlogs, hseenIDs, ?_⟩
  intro hio
  obtain ⟨hst, -⟩ := appendReviews_written m.store env.storeAt env.io app.AppID app.Country
    [] [] (Or.inl hio)
  simp only [hst]
  refine ⟨by rw [Function.update_same]; rfl, ?_⟩
  intro k hk
  rw [Function.update_noteq hk]

/-- C6 on a target that has seen 1001 and 1002 and whose first page holds exactly these
two: the trace is one fetch, one success and one empty store call, and last-poll becomes
the clock reading of the store call. -/
theorem nothing_new_witness :
    (sampleManager.PollOnce sampleFailingEnv sampleApp).2 =
      [.fetched 1 true, .success, .append [] []] ∧
    (sampleManager.PollOnce sampleFailingEnv sampleApp).1.store.state "595068606-us" =
      some { SeenIDs := ["1001", "1002"], LastPoll := 1700000002 } := by
  have h := nothing_new sampleManager sampleFailingEnv sampleApp
    [sampleReview "1001" 1500000000, sampleReview "1002" 1500000001] rfl rfl rfl (by decide)
  exact ⟨h.1, (h.2.2.2 rfl).1⟩

/-! ## Poller and breaker together -/

theorem success_of_closed (c : CircuitBreaker) (h : c.state = .cbClosed) :
    c.Success.state = .cbClosed ∧ c.Success.failures = 0 ∧
    c.Success.failureThreshold = c.failureThreshold := by
  simp [CircuitBreaker.Success, h]

/-- A first failure of a Closed breaker whose threshold is at least 2 leaves it Closed
with counter 1. -/
theorem failure_of_closed_zero (c : CircuitBreaker) (now : Time) (h : c.state = .cbClosed)
    (hz : c.failures = 0) (ht : 2 ≤ c.failureThreshold) :
    (c.Failure now).state = .cbClosed ∧ (c.Failure now).failures = 1 ∧
    (c.Failure now).failureThreshold = c.failureThreshold := by
  have hw : wrap64 1 = 1 := by decide
  have hlt : ¬ c.failureThreshold ≤ 1 := by omega
  simp [CircuitBreaker.Failure, h, hz, hw, hlt]

/-- The breaker through the page loop.  Entered with a Closed breaker whose counter is 0
and whose threshold is at least 2, the loop is left, either way, with the breaker Closed,
its counter 0 or 1 and its threshold unchanged; the trace is only extended. -/
theorem pageLoop_breaker (env : PollEnv) :
    ∀ (n page : Nat) (st : PageLoop), maxPages + 1 - page = n →
      st.cb.state = .cbClosed → st.cb.failures = 0 → 2 ≤ st.cb.failureThreshold →
      ∃ (st' : PageLoop) (T : List PollEvent),
        (pageLoop env page st = .abandoned st' ∨ pageLoop env page st = .completed st') ∧
        st'.trace = st.trace ++ T ∧
        st'.cb.state = .cbClosed ∧ 0 ≤ st'.cb.failures ∧ st'.cb.failures ≤ 1 ∧
        st'.cb.failureThreshold = st.cb.failureThreshold := by
  intro n
  induction n with
  | zero =>
    intro page st hn hs hz ht
    have hp : ¬ page ≤ maxPages := by omega
    refine ⟨st, [], Or.inr (by rw [pageLoop, if_neg hp]), by simp, hs, ?_, ?_, rfl⟩
    · rw [hz]
    · rw [hz]
      decide
  | succ n ih =>
    intro page st hn hs hz ht
    have hp : page ≤ maxPages := by omega
    obtain ⟨s1, s2, s3⟩ := success_of_closed st.cb hs
    rw [pageLoop, if_pos hp]
    cases hf : env.fetch page with
    | error e =>
      obtain ⟨f1, f2, f3⟩ := failure_of_closed_zero st.cb env.failAt hs hz ht
      refine ⟨_, [.fetched page false, .failure], Or.inl rfl, rfl, f1, ?_, ?_, f3⟩
      · simp only [f2]
        decide
      · simp only [f2]
        decide
    | ok revs =>
      simp only
      split
      · refine ⟨_, [.fetched page true, .success], Or.inr rfl, rfl, s1, ?_, ?_, s3⟩
        · simp only [s2]
          decide
        · simp only [s2]
          decide
      · obtain ⟨added, h1, -, -⟩ := scanPage_spec
          { st with
              cb := st.cb.Success
              trace := st.trace ++ [.fetched page true, .success] } revs
        split
        · refine ⟨_, [.fetched page true, .success], Or.inr rfl, ?_, ?_, ?_, ?_, ?_⟩
          · rw [h1]
          · rw [h1]; exact s1
          · rw [h1]; simp only [s2]; decide
          · rw [h1]; simp only [s2]; decide
          · rw [h1]; exact s3
        · obtain ⟨st', T, hexit, e1, e2, e3, e4, e5⟩ := ih (page + 1)
            { (scanPage
                { st with
                    cb := st.cb.Success
                    trace := st.trace ++ [.fetched page true, .success] } revs).1 with
              trace := (scanPage
                { st with
                    cb := st.cb.Success
                    trace := st.trace ++ [.fetched page true, .success] } revs).1.trace ++
                  [.pause] }
            (by omega) (by rw [h1]; exact s1) (by rw [h1]; exact s2)
            (by rw [h1]; simp only [s3]; exact ht)
          refine ⟨st', [.fetched page true, .success, .pause] ++ T, hexit, ?_, e2, e3, e4, ?_⟩
          · rw [e1, h1]
            simp
          · rw [e5, h1]
            exact s3

/-- The page loop entered at page 1 with a Closed breaker (threshold at least 2, any
counter) when the fetch of page 1 succeeds: the trace is extended by the fetch of page 1,
the report of its success and further events, and the breaker is left Closed with counter
0 or 1. -/
theorem pageLoop_first_page (env : PollEnv) (st : PageLoop) (revs : List Review)
    (hfetch : env.fetch 1 = .ok revs) (hs : st.cb.state = .cbClosed)
    (ht : 2 ≤ st.cb.failureThreshold) :
    ∃ (st' : PageLoop) (T : List PollEvent),
      (pageLoop env 1 st = .abandoned st' ∨ pageLoop env 1 st = .completed st') ∧
      st'.trace = st.trace ++ (.fetched 1 true :: .success :: T) ∧
      st'.cb.state = .cbClosed ∧ 0 ≤ st'.cb.failures ∧ st'.cb.failures ≤ 1 ∧
      st'.cb.failureThreshold = st.cb.failureThreshold := by
  obtain ⟨s1, s2, s3⟩ := success_of_closed st.cb hs
  rw [pageLoop, if_pos (by decide), hfetch]
  simp only
  split
  · refine ⟨_, [], Or.inr rfl, rfl, s1, ?_, ?_, s3⟩
    · simp only [s2]
      decide
    · simp only [s2]
      decide
  · obtain ⟨added, h1, -, -⟩ := scanPage_spec
      { st with
          cb := st.cb.Success
          trace := st.trace ++ [.fetched 1 true, .success] } revs
    split
    · refine ⟨_, [], Or.inr rfl, ?_, ?_, ?_, ?_, ?_⟩
      · rw [h1]
      · rw [h1]; exact s1
      · rw [h1]; simp only [s2]; decide
      · rw [h1]; simp only [s2]; decide
      · rw [h1]; exact s3
    · obtain ⟨st', T, hexit, e1, e2, e3, e4, e5⟩ := pageLoop_breaker env _ (1 + 1)
        { (scanPage
            { st with
                cb := st.cb.Success
                trace := st.trace ++ [.fetched 1 true, .success] } revs).1 with
          trace := (scanPage
            { st with
                cb := st.cb.Success
                trace := st.trace ++ [.fetched 1 true, .success] } revs).1.trace ++
              [.pause] }
        rfl (by rw [h1]; exact s1) (by rw [h1]; exact s2)
        (by rw [h1]; simp only [s3]; exact ht)
      refine ⟨st', .pause :: T, hexit, ?_, e2, e3, e4, ?_⟩
      · rw [e1, h1]
        simp
      · rw [e5, h1]
        exact s3

theorem breakerForUnsafe_of_some (m : Manager) (app : AppConfig) (cb : CircuitBreaker)
    (h : m.breakers (storeKey app.AppID app.Country) = some cb) :
    (m.breakerForUnsafe app).1 = cb := by
  have h' : m.breakers (app.AppID ++ "-" ++ app.Country) = some cb := h
  simp [Manager.breakerForUnsafe, h']

/-- One poll iteration of a target that is not in progress, whose breaker is Closed with
threshold at least 2, and whose page 1 is fetched successfully: `Allow()` answers true, the
iteration starts with the fetch of page 1 and the report of its success, and afterwards
the target is not in progress and its breaker is Closed with counter 0 or 1 and the same
threshold. -/
theorem pollOnce_breaker (m : Manager) (env : PollEnv) (app : AppConfig) (revs : List Review)
    (hrun : m.running (storeKey app.AppID app.Country) = false)
    (hs : (m.breakerForUnsafe app).1.state = .cbClosed)
    (ht : 2 ≤ (m.breakerForUnsafe app).1.failureThreshold)
    (hfetch : env.fetch 1 = .ok revs) :
    ((m.breakerForUnsafe app).1.Allow env.allowAt).1 = true ∧
    (∃ T, (m.PollOnce env app).2 = .fetched 1 true :: .success :: T) ∧
    (m.PollOnce env app).1.running (storeKey app.AppID app.Country) = false ∧
    ∃ cb, (m.PollOnce env app).1.breakers (storeKey app.AppID app.Country) = some cb ∧
      cb.state = .cbClosed ∧ 0 ≤ cb.failures ∧ cb.failures ≤ 1 ∧
      cb.failureThreshold = (m.breakerForUnsafe app).1.failureThreshold := by
  have hrun' : m.running (app.AppID ++ "-" ++ app.Country) = false := hrun
  have hallow : (m.breakerForUnsafe app).1.Allow env.allowAt =
      (true, (m.breakerForUnsafe app).1) := by
    simp [CircuitBreaker.Allow, hs]
  obtain ⟨st', T, hexit, e1, e2, e3, e4, e5⟩ := pageLoop_first_page env
    { cb := (m.breakerForUnsafe app).1
      seen := (m.breakerForUnsafe app).2.store.GetSeenSet app.AppID app.Country
      newTotal := 0, newIDs := [], toAppend := [], trace := [] } revs hfetch hs ht
  refine ⟨by rw [hallow], ?_⟩
  unfold Manager.PollOnce
  simp only [hrun', hallow, storeKey, Bool.not_true, Bool.false_eq_true, if_false]
  rcases hexit with h | h
  · simp only [h]
    refine ⟨⟨T, by simpa using e1⟩, by simp, st'.cb, by simp, e2, e3, e4, e5⟩
  · simp only [h]
    split
    · refine ⟨⟨T ++ [.append st'.toAppend st'.newIDs], by simp [e1]⟩, by simp, st'.cb,
        by simp, e2, e3, e4, e5⟩
    · refine ⟨⟨T ++ [.append [] []], by simp [e1]⟩, by simp, st'.cb, by simp, e2, e3, e4, e5⟩

/-- Iterations of one target whose page 1 is always fetched successfully keep the target
out of progress and its breaker Closed with the threshold at least 2. -/
theorem run_breaker (app : AppConfig) :
    ∀ (done : List PollEnv) (m : Manager),
      m.running (storeKey app.AppID app.Country) = false →
      (m.breakerForUnsafe app).1.state = .cbClosed →
      2 ≤ (m.breakerForUnsafe app).1.failureThreshold →
      (∀ e ∈ done, ∃ revs, e.fetch 1 = .ok revs) →
      (m.run (done.map (fun e => (e, app)))).running (storeKey app.AppID app.Country) = false ∧
      ((m.run (done.map (fun e => (e, app)))).breakerForUnsafe app).1.state = .cbClosed ∧
      2 ≤ ((m.run (done.map (fun e => (e, app)))).breakerForUnsafe app).1.failureThreshold := by
  intro done
  induction done with
  | nil => intro m h1 h2 h3 _; exact ⟨h1, h2, h3⟩
  | cons e es ih =>
    intro m h1 h2 h3 hp
    obtain ⟨revs, hrevs⟩ := hp e (List.mem_cons_self _ _)
    obtain ⟨-, -, r1, cb, r2, r3, -, -, r6⟩ := pollOnce_breaker m e app revs h1 h2 h3 hrevs
    have hcb := breakerForUnsafe_of_some _ app cb r2
    exact ih (m.PollOnce e app).1 r1 (by rw [hcb]; exact r3) (by rw [hcb, r6]; exact h3)
      (fun x hx => hp x (List.mem_cons_of_mem _ hx))

/-- C11 (the breaker cannot open while first pages succeed).  Take a target that is not in
progress and whose breaker (existing, or created on first use) is Closed with a threshold
of at least 2, whatever its counter, in particular 0; and take any sequence of poll
iterations of that target in each of which the fetch of page 1 succeeds, whatever happens
on the later pages.  Then at the start of every iteration `Allow()` answers true, the
iteration is not skipped (it starts with the fetch of page 1 and the report of its
success), and after it the breaker is Closed with failure counter 0 or 1. -/
theorem breaker_never_opens (m0 : Manager) (app : AppConfig) (envs : List PollEnv)
    (hrun : m0.running (storeKey app.AppID app.Country) = false)
    (hclosed : (m0.breakerForUnsafe app).1.state = .cbClosed)
    (hthr : 2 ≤ (m0.breakerForUnsafe app).1.failureThreshold)
    (hpage1 : ∀ env ∈ envs, ∃ revs, env.fetch 1 = .ok revs) :
    ∀ (done rest : List PollEnv) (env : PollEnv), envs = done ++ env :: rest →
      (((m0.run (done.map (fun e => (e, app)))).breakerForUnsafe app).1.Allow
        env.allowAt).1 = true ∧
      (∃ T, ((m0.run (done.map (fun e => (e, app)))).PollOnce env app).2 =
        .fetched 1 true :: .success :: T) ∧
      ∃ cb, ((m0.run (done.map (fun e => (e, app)))).PollOnce env app).1.breakers
          (storeKey app.AppID app.Country) = some cb ∧
        cb.state = .cbClosed ∧ 0 ≤ cb.failures ∧ cb.failures ≤ 1 := by
  intro done rest env henvs
  have hdone : ∀ e ∈ done, ∃ revs, e.fetch 1 = .ok revs :=
    fun e he => hpage1 e (by rw [henvs]; exact List.mem_append_left _ he)
  obtain ⟨revs, hrevs⟩ := hpage1 env (by rw [henvs]; simp)
  obtain ⟨g1, g2, g3⟩ := run_breaker app done m0 hrun hclosed hthr hdone
  obtain ⟨r1, r2, -, cb, r4, r5, r6, r7, -⟩ :=
    pollOnce_breaker (m0.run (done.map (fun e => (e, app)))) env app revs g1 g2 g3 hrevs
  exact ⟨r1, r2, cb, r4, r5, r6, r7⟩

/-- C11 on three iterations with threshold 3 in each of which page 1 succeeds and the
fetch of page 2 fails: after the third iteration the breaker is still Closed, with
counter at most 1. -/
theorem breaker_never_opens_witness :
    ∃ cb, ((freshManager.run
        ([sampleFailingEnv, sampleFailingEnv].map (fun e => (e, sampleApp)))).PollOnce
          sampleFailingEnv sampleApp).1.breakers (storeKey "595068606" "us") = some cb ∧
      cb.state = .cbClosed ∧ cb.failures ≤ 1 := by
  have hpage1 : ∀ env ∈ [sampleFailingEnv, sampleFailingEnv, sampleFailingEnv],
      ∃ revs, env.fetch 1 = .ok revs := by
    intro env henv
    have h : env = sampleFailingEnv := by simpa using henv
    subst h
    exact ⟨_, rfl⟩
  obtain ⟨-, -, cb, h1, h2, -, h3⟩ :=
    breaker_never_opens freshManager sampleApp
      [sampleFailingEnv, sampleFailingEnv, sampleFailingEnv] rfl rfl (by decide) hpage1
      [sampleFailingEnv, sampleFailingEnv] [] sampleFailingEnv rfl
  exact ⟨cb, h1, h2, h3⟩

/-! ## Store and poller: the dedup invariant -/

theorem logRecords_append (l l' : List LogLine) :
    logRecords (l ++ l') = logRecords l ++ logRecords l' := by
  simp [logRecords, List.filterMap_append]

/-- The records among the lines written for `reviews` are the reviews `json.Marshal`
accepts. -/
theorem logRecords_marshal (reviews : List Review) :
    logRecords (reviews.map marshalLine) = reviews.filter marshalOK := by
  induction reviews with
  | nil => rfl
  | cons r rs ih =>
    have ih' : List.filterMap (fun l => match l with
        | .record r => some r
        | .blank => none) (rs.map marshalLine) = rs.filter marshalOK := ih
    by_cases h : marshalOK r = true <;>
      simp [logRecords, marshalLine, h, ih']

theorem appendReviews_baseDir (s : FileStore) (now : Time) (io : IOFault)
    (appID country : String) (reviews : List Review) (newIDs : List String) :
    (s.AppendReviews now io appID country reviews newIDs).2.baseDir = s.baseDir := by
  cases io <;> simp [FileStore.AppendReviews, FileStore.SaveState]

theorem reviewsFilePath_congr (s s' : FileStore) (h : s'.baseDir = s.baseDir)
    (appID country : String) :
    s'.ReviewsFilePath appID country = s.ReviewsFilePath appID country := by
  simp [FileStore.ReviewsFilePath, h]

/-- A store call for the target `(appID, country)` whose log phase does not fail after the
log was opened, and whose reviews carry the distinct, not yet seen identifiers `ids`, keeps
the dedup invariant of every target `(a, c)` that does not share its log file with
`(appID, country)` under a different key. -/
theorem targetInv_append (s : FileStore) (now : Time) (io : IOFault) (appID country : String)
    (reviews : List Review) (ids : List String) (a c : String)
    (hio : io = .none ∨ io = .openLog ∨ io = .saveState)
    (hshare : s.ReviewsFilePath appID country = s.ReviewsFilePath a c →
      storeKey appID country = storeKey a c)
    (hinv : TargetInv s a c)
    (hids : reviews.map (·.ID) = ids) (hnd : ids.Nodup)
    (hnew : ∀ x ∈ ids, x ∉ s.GetSeenSet appID country) :
    TargetInv (s.AppendReviews now io appID country reviews ids).2 a c := by
  rcases hio with hio | hio | hio
  case inr.inl =>
    subst hio
    exact hinv
  all_goals
    have hw : io = .none ∨ io = .saveState := by
      first
        | exact Or.inl hio
        | exact Or.inr hio
    obtain ⟨hst, hlog⟩ := appendReviews_written s now io appID country reviews ids hw
    obtain ⟨added, m1, m2, m3, -⟩ :=
      mergeSeen_spec { SeenIDs := s.seenIDs (storeKey appID country), LastPoll := now } ids
    have hpath := reviewsFilePath_congr s _
      (appendReviews_baseDir s now io appID country reviews ids) a c
    obtain ⟨i1, i2, i3⟩ := hinv
    have hfresh : ∀ x ∈ ids, x ∉ s.seenIDs (storeKey appID country) :=
      fun x hx h => hnew x hx ((mem_getSeenSet s appID country x).2 h)
    -- the seen-ID sequence of `(a, c)` afterwards
    have hseen : ∃ extra : List String,
        (s.AppendReviews now io appID country reviews ids).2.seenIDs (storeKey a c) =
          s.seenIDs (storeKey a c) ++ extra ∧
        (s.seenIDs (storeKey a c) ++ extra).Nodup ∧
        (storeKey appID country = storeKey a c → ∀ x ∈ ids, x ∈ extra) := by
      by_cases hk : storeKey a c = storeKey appID country
      · refine ⟨added, ?_, ?_, ?_⟩
        · rw [hk]
          exact seenIDs_of_state _ _ _ (by rw [hst, Function.update_same, m1])
        · rw [hk]
          rw [hk] at i3
          refine List.Nodup.append i3 m2 ?_
          intro x hx hx'
          exact ((m3 x).1 hx').2 hx
        · intro _ x hx
          exact (m3 x).2 ⟨hx, hfresh x hx⟩
      · refine ⟨[], ?_, by simpa using i3, fun h => absurd h.symm hk⟩
        unfold FileStore.seenIDs
        rw [hst, Function.update_noteq hk, List.append_nil]
    obtain ⟨extra, e1, e2, e3⟩ := hseen
    unfold TargetInv
    rw [hpath, e1, hlog]
    by_cases hp : s.ReviewsFilePath a c = s.ReviewsFilePath appID country
    · have hk := hshare hp.symm
      rw [hp, Function.update_same, logRecords_append, logRecords_marshal]
      rw [hp] at i1 i2
      have hsub : ((reviews.filter marshalOK).map (·.ID)).Sublist ids := by
        rw [← hids]
        exact (List.filter_sublist reviews).map _
      refine ⟨?_, ?_, e2⟩
      · rw [List.map_append]
        refine List.Nodup.append i1 (hnd.sublist hsub) ?_
        intro x hx hx'
        obtain ⟨r, hr, hrx⟩ := List.mem_map.mp hx
        have hxs : x ∈ s.seenIDs (storeKey a c) := hrx ▸ i2 r hr
        rw [← hk] at hxs
        exact hfresh x (hsub.subset hx') hxs
      · intro r hr
        rcases List.mem_append.mp hr with h | h
        · exact List.mem_append_left _ (i2 r h)
        · have hrid : r.ID ∈ ids := hsub.subset (List.mem_map_of_mem _ h)
          exact List.mem_append_right _ (e3 hk _ hrid)
    · rw [Function.update_noteq hp]
      exact ⟨i1, fun r hr => List.mem_append_left _ (i2 r hr), e2⟩

theorem pollOnce_baseDir (m : Manager) (env : PollEnv) (app : AppConfig) :
    (m.PollOnce env app).1.store.baseDir = m.store.baseDir := by
  rcases pollOnce_store m env app with h | ⟨reviews, ids, -, -, -, h⟩
  · rw [h]
  · rw [h, appendReviews_baseDir]

theorem targetInv_pollOnce (m : Manager) (env : PollEnv) (app : AppConfig) (a c : String)
    (hio : env.io = .none ∨ env.io = .openLog ∨ env.io = .saveState)
    (hshare : m.store.ReviewsFilePath app.AppID app.Country = m.store.ReviewsFilePath a c →
      storeKey app.AppID app.Country = storeKey a c)
    (hinv : TargetInv m.store a c) : TargetInv (m.PollOnce env app).1.store a c := by
  rcases pollOnce_store m env app with h | ⟨reviews, ids, h1, h2, h3, h4⟩
  · rw [h]
    exact hinv
  · rw [h4]
    exact targetInv_append m.store env.storeAt env.io app.AppID app.Country reviews ids a c
      hio hshare hinv h1 h2 h3

theorem targetInv_run (s0 : FileStore) (a c : String) (its : List (PollEnv × AppConfig)) :
    ∀ m : Manager, m.store.baseDir = s0.baseDir → TargetInv m.store a c →
      (∀ it ∈ its, it.1.io = .none ∨ it.1.io = .openLog ∨ it.1.io = .saveState) →
      (∀ it ∈ its, s0.ReviewsFilePath it.2.AppID it.2.Country = s0.ReviewsFilePath a c →
        storeKey it.2.AppID it.2.Country = storeKey a c) →
      TargetInv (m.run its).store a c := by
  induction its with
  | nil => intro m _ h _ _; exact h
  | cons it its ih =>
    intro m hb h hio hshare
    have hshare1 : m.store.ReviewsFilePath it.2.AppID it.2.Country =
        m.store.ReviewsFilePath a c → storeKey it.2.AppID it.2.Country = storeKey a c := by
      rw [reviewsFilePath_congr s0 m.store hb, reviewsFilePath_congr s0 m.store hb]
      exact hshare it (List.mem_cons_self _ _)
    have h1 := targetInv_pollOnce m it.1 it.2 a c (hio it (List.mem_cons_self _ _)) hshare1 h
    exact ih (m.PollOnce it.1 it.2).1 (by rw [pollOnce_baseDir, hb]) h1
      (fun x hx => hio x (List.mem_cons_of_mem _ hx))
      (fun x hx => hshare x (List.mem_cons_of_mem _ hx))

theorem targetInv_empty (a c : String) : TargetInv FileStore.empty a c := by
  simp [TargetInv, FileStore.empty, FileStore.seenIDs, logRecords]

/-- C1, amended (log dedup invariant).  Starting from an empty store, take any sequence of
poll iterations (of any targets, with any fetch outcomes and page contents, pages that
repeat an identifier included, and any breaker configuration) in which no store call fails
while writing, flushing or closing the review log, and any target that shares its log file
with no target of a different key polled in the sequence.  Then no review identifier
occurs in two records of the target's log, every identifier of the log is in the target's
seen-ID sequence, and that sequence has no repeated identifier. -/
theorem log_dedup (failureThreshold openCooldownSeconds : Int)
    (its : List (PollEnv × AppConfig)) (target : AppConfig)
    (hio : ∀ it ∈ its,
      it.1.io = IOFault.none ∨ it.1.io = IOFault.openLog ∨ it.1.io = IOFault.saveState)
    (hshare : ∀ it ∈ its,
      FileStore.empty.ReviewsFilePath it.2.AppID it.2.Country =
          FileStore.empty.ReviewsFilePath target.AppID target.Country →
        storeKey it.2.AppID it.2.Country = storeKey target.AppID target.Country) :
    ((logRecords
        (((NewManager failureThreshold openCooldownSeconds FileStore.empty).run its).store.logs
          (FileStore.empty.ReviewsFilePath target.AppID target.Country))).map (·.ID)).Nodup ∧
    (∀ r ∈ logRecords
        (((NewManager failureThreshold openCooldownSeconds FileStore.empty).run its).store.logs
          (FileStore.empty.ReviewsFilePath target.AppID target.Country)),
      r.ID ∈ ((NewManager failureThreshold openCooldownSeconds FileStore.empty).run
        its).store.seenIDs (storeKey target.AppID target.Country)) ∧
    (((NewManager failureThreshold openCooldownSeconds FileStore.empty).run its).store.seenIDs
        (storeKey target.AppID target.Country)).Nodup := by
  have h := targetInv_run FileStore.empty target.AppID target.Country its
    (NewManager failureThreshold openCooldownSeconds FileStore.empty) rfl
    (targetInv_empty _ _) hio hshare
  have hb : ∀ (l : List (PollEnv × AppConfig)) (m : Manager),
      (m.run l).store.baseDir = m.store.baseDir := by
    intro l
    induction l with
    | nil => intro m; rfl
    | cons x xs ih =>
      intro m
      exact (ih (m.PollOnce x.1 x.2).1).trans (pollOnce_baseDir m x.1 x.2)
  have hp := reviewsFilePath_congr FileStore.empty _
    (hb its (NewManager failureThreshold openCooldownSeconds FileStore.empty))
    target.AppID target.Country
  unfold TargetInv at h
  rw [hp] at h
  exact h

/-- C1 amended, on two iterations of one target over pages that repeat identifiers within
a page, across pages and across iterations. -/
theorem log_dedup_witness :
    ((logRecords (((NewManager 3 60 FileStore.empty).run
        [(samplePollEnv, sampleApp), (samplePollEnv, sampleApp)]).store.logs
        (FileStore.empty.ReviewsFilePath "595068606" "us"))).map (·.ID)).Nodup :=
  (log_dedup 3 60 [(samplePollEnv, sampleApp), (samplePollEnv, sampleApp)] sampleApp
    (by decide) (by decide)).1

/-- C1, refuted as stated.  From an empty store: (a) an iteration whose store call fails
when closing the log, followed by the same iteration without failure, leaves every
identifier twice in the target's log, the first iteration having left the seen-ID sequence
empty; (b) without any failure, an iteration of the target 595068606-us followed by one of
the target ./595068606-us, whose log file is the same, leaves every identifier twice in
that file. -/
theorem log_dedup_counterexample :
    ((logRecords (((NewManager 3 60 FileStore.empty).run
          [(sampleCloseFailEnv, sampleApp), (samplePollEnv, sampleApp)]).store.logs
        (FileStore.empty.ReviewsFilePath "595068606" "us"))).map (·.ID) =
      ["1001", "1002", "1003", "1001", "1002", "1003"] ∧
     ((NewManager 3 60 FileStore.empty).run
          [(sampleCloseFailEnv, sampleApp)]).store.seenIDs (storeKey "595068606" "us") = []) ∧
    (FileStore.empty.ReviewsFilePath "./595068606" "us" =
        FileStore.empty.ReviewsFilePath "595068606" "us" ∧
     (logRecords (((NewManager 3 60 FileStore.empty).run
          [(samplePollEnv, sampleApp), (samplePollEnv, sampleDotApp)]).store.logs
        (FileStore.empty.ReviewsFilePath "595068606" "us"))).map (·.ID) =
      ["1001", "1002", "1003", "1001", "1002", "1003"]) := by
  have hp1 : filepathClean ("/".intercalate ["data", "reviews", "595068606-us.jsonl"]) =
      "data/reviews/595068606-us.jsonl" := by decide
  have hp2 : filepathClean ("/".intercalate ["data", "reviews", "./595068606-us.jsonl"]) =
      "data/reviews/595068606-us.jsonl" := by decide
  have hm : ∀ id : String, ∀ t : Time, yearZero ≤ t → t < yearTenThousand →
      marshalLine (sampleReview id t) = .record (sampleReview id t) := by
    intro id t h1 h2
    simp [marshalLine, marshalOK, sampleReview, h1, h2]
  have hm0 := hm "1001" 1500000000 (by decide) (by decide)
  have hm1 := hm "1002" 1500000001 (by decide) (by decide)
  have hm2 := hm "1003" 1500000002 (by decide) (by decide)
  have hid : ∀ id : String, ∀ t : Time, (sampleReview id t).ID = id := fun _ _ => rfl
  refine ⟨⟨?_, ?_⟩, by decide, ?_⟩
  · simp [Manager.run, Manager.PollOnce, NewManager, sampleCloseFailEnv, sampleApp,
      samplePollEnv, Manager.breakerForUnsafe, CircuitBreaker.Allow, CircuitBreaker.Success,
      NewCircuitBreaker, pageLoop, maxPages, sampleFetch, scanPage, FileStore.GetSeenSet,
      FileStore.empty, storeKey, FileStore.AppendReviews, FileStore.SaveState,
      FileStore.ReviewsFilePath, filepathJoin, logRecords, hp1, hm0, hm1, hm2, hid,
      mergeSeen, idSet, Function.update]
  · simp [Manager.run, Manager.PollOnce, NewManager, sampleCloseFailEnv, sampleApp,
      Manager.breakerForUnsafe, CircuitBreaker.Allow, CircuitBreaker.Success,
      NewCircuitBreaker, pageLoop, maxPages, sampleFetch, scanPage, FileStore.GetSeenSet,
      FileStore.empty, storeKey, FileStore.AppendReviews, FileStore.SaveState,
      FileStore.ReviewsFilePath, filepathJoin, FileStore.seenIDs, hid, Function.update]
  · simp [Manager.run, Manager.PollOnce, NewManager, sampleDotApp, sampleApp,
      samplePollEnv, Manager.breakerForUnsafe, CircuitBreaker.Allow, CircuitBreaker.Success,
      NewCircuitBreaker, pageLoop, maxPages, sampleFetch, scanPage, FileStore.GetSeenSet,
      FileStore.empty, storeKey, FileStore.AppendReviews, FileStore.SaveState,
      FileStore.ReviewsFilePath, filepathJoin, logRecords, hp1, hp2, hm0, hm1, hm2, hid,
      mergeSeen, idSet, Function.update]

end RecentReviews
